import Mathlib

/-!
Verification of the Codex → OpenAI response translator.

This file gives a shallow embedding of the Go sources:

* `translator/codex_openai.go` (the file `src/unnamed/part_000`, package
  `chat_completions`): `normalizeCodexReasoningCompat`,
  `resolveCodexReasoningCompat`, `joinReasoningText`,
  `applyCodexReasoningCompatToMessage`, `ConvertCodexResponseToOpenAI`
  (streaming state machine) and `ConvertCodexResponseToOpenAINonStream`.
* `src/internal/runtime/executor/codex_settings.go`:
  `applyCodexCommandSettings`, `applyCodexCompatibilityMode`,
  `annotateCodexOriginalRequest`.

Modelling conventions:

* JSON documents manipulated with `gjson`/`sjson` (the settings payloads and
  original requests) are modelled by the inductive `JValue`; a JSON object is
  a list of key/value bindings read with first-match semantics, exactly as
  `gjson` does; `sjson.SetBytes` replaces the first binding of the key in
  place or appends a fresh binding at the end, and `sjson.DeleteBytes`
  removes the first binding.  These model well-formed (valid, non-empty)
  JSON inputs, which is the precondition the Go code checks byte-wise.
* The vendor events consumed by the streaming translator are pre-parsed into
  the record `CodexEvent` whose optional fields mirror the `gjson` lookups
  the Go code performs (`type`, `delta`, `item`, `response`, top-level
  `model`); a missing JSON field is `none` and `gjson`'s
  `.String()` / `.Int()` defaults (`""` / `0`) are applied at the use sites,
  as in the source.  The `data:` line-prefix handling is transport framing
  and is not modelled: every `CodexEvent` stands for one well-formed data
  line.
* Output chunks built with `sjson` over the SSE template string are modelled
  by the record `Chunk`; a field that the Go code never sets stays `none`
  (JSON `null` / absent).
* Go `strings.TrimSpace` / `strings.ToLower` are modelled character-wise
  (`trimChars`, `Char.toLower`) over the ASCII/Latin-1 range, which covers
  every string the translator compares against.
* `buildShortNameMap` (the tool-name shortening contract) lives outside the
  excerpt; both translators consume it only through the reverse lookup
  built by `buildReverseMapFromOriginalOpenAI`, so the embedding passes the
  reverse lookup `rev : String → Option String` as a parameter, the same
  value to both paths, exactly as both Go functions rebuild it from the
  same original request.
-/

/-! ## Character and string helpers (Go `strings.TrimSpace`, `strings.ToLower`) -/

/-- The whitespace set of Go `unicode.IsSpace` restricted to the Latin-1
range: `'\t' '\n' '\v' '\f' '\r' ' '` and `U+0085`, `U+00A0`. -/
def goIsSpace (c : Char) : Bool :=
  c.toNat = 32 ∨ c.toNat = 9 ∨ c.toNat = 10 ∨ c.toNat = 11 ∨
  c.toNat = 12 ∨ c.toNat = 13 ∨ c.toNat = 133 ∨ c.toNat = 160

/-- Go `strings.TrimSpace` on the character list of a string. -/
def trimChars (l : List Char) : List Char :=
  ((l.dropWhile goIsSpace).reverse.dropWhile goIsSpace).reverse

/-- Go `strings.TrimSpace`. -/
def trimStr (s : String) : String :=
  String.mk (trimChars s.data)

/-- Go `strings.ToLower` (ASCII letters, the range the translator uses). -/
def lowerStr (s : String) : String :=
  String.mk (s.data.map Char.toLower)

/-- Go `strings.EqualFold` (ASCII simple folding). -/
def strEqFold (a b : String) : Bool :=
  a.data.map Char.toLower = b.data.map Char.toLower

/-! ## JSON model for the `gjson`/`sjson` manipulated payloads -/

/-- A JSON value.  Numbers are modelled as integers (the only numbers the
translator touches are token counters and timestamps). -/
inductive JValue where
  | null : JValue
  | bool (b : Bool) : JValue
  | num (n : Int) : JValue
  | str (s : String) : JValue
  | arr (xs : List JValue) : JValue
  | obj (fields : List (String × JValue)) : JValue

/-- A JSON object: ordered key/value bindings. -/
abbrev JObject := List (String × JValue)

/-- `gjson` field lookup: first binding wins. -/
def getKey (o : JObject) (k : String) : Option JValue :=
  match o with
  | [] => none
  | kv :: rest => if kv.1 = k then some kv.2 else getKey rest k

/-- `sjson.SetBytes` on a top-level key: replace the first binding in place,
else append a fresh binding at the end of the object. -/
def setKey (o : JObject) (k : String) (v : JValue) : JObject :=
  match o with
  | [] => [(k, v)]
  | kv :: rest => if kv.1 = k then (k, v) :: rest else kv :: setKey rest k v

/-- `sjson.DeleteBytes` on a top-level key: remove the first binding (no-op
when the key is absent). -/
def deleteKey (o : JObject) (k : String) : JObject :=
  match o with
  | [] => []
  | kv :: rest => if kv.1 = k then rest else kv :: deleteKey rest k

/-- Two-segment `gjson` path lookup `k1.k2` (used for
`__codex_settings.reasoning_compat`). -/
def getPath2 (o : JObject) (k1 k2 : String) : Option JValue :=
  match getKey o k1 with
  | some (JValue.obj inner) => getKey inner k2
  | _ => none

/-- `gjson`'s `Result.String()` coercion on the value kinds the translator
reads (objects and arrays yield their raw JSON in `gjson`; no compared-for
string can arise that way, so they map to `""` here). -/
def jStringOf : JValue → String
  | JValue.null => ""
  | JValue.bool b => if b then "true" else "false"
  | JValue.num n => toString n
  | JValue.str s => s
  | JValue.arr _ => ""
  | JValue.obj _ => ""

/-! ## Reasoning-compatibility resolver (`normalizeCodexReasoningCompat`,
`resolveCodexReasoningCompat`) -/

/-- The key used by `normalizeCodexReasoningCompat`:
`strings.ToLower(strings.TrimSpace(raw))`. -/
def normKey (raw : String) : String :=
  String.mk ((trimChars raw.data).map Char.toLower)

/-- The branch on the canonical value (the `switch` of the Go function). -/
def normFromKey (value : String) : String :=
  if value = "legacy" ∨ value = "o3" ∨ value = "think-tags" ∨ value = "current"
  then value else "think-tags"

/-- Go `normalizeCodexReasoningCompat`: lower-case and trim, return the value
when it is one of the four canonical modes, else `"think-tags"`. -/
def normalizeCodexReasoningCompat (raw : String) : String :=
  normFromKey (normKey raw)

/-- Go `resolveCodexReasoningCompat`: read the annotated compat mode from the
original request (two historical key spellings), normalizing; absence
normalizes the empty string. -/
def resolveCodexReasoningCompat (originalRequest : JObject) : String :=
  match getPath2 originalRequest "__codex_settings" "reasoning_compat" with
  | some v => normalizeCodexReasoningCompat (jStringOf v)
  | none =>
    match getPath2 originalRequest "codex_settings" "reasoning_compat" with
    | some v => normalizeCodexReasoningCompat (jStringOf v)
    | none => normalizeCodexReasoningCompat ""

/-! ## Settings applier (`codex_settings.go`) -/

/-- `config.CodexSettings`, with the fields the two source files read. -/
structure CodexSettings where
  ReasoningEffort : String := ""
  ReasoningSummary : String := ""
  CompatibilityMode : Bool := false
  EnableWebSearch : Bool := false
  ReasoningCompat : String := ""
  Verbose : Bool := false
  VerboseObfuscation : Bool := false

/-- `sjson.SetBytes` on a two-segment path `k1.k2`: when `k1` holds an
object, set `k2` inside it; otherwise create (or overwrite with) a fresh
object holding only `k2`. -/
def setPath2 (o : JObject) (k1 k2 : String) (v : JValue) : JObject :=
  match getKey o k1 with
  | some (JValue.obj inner) => setKey o k1 (JValue.obj (setKey inner k2 v))
  | _ => setKey o k1 (JValue.obj [(k2, v)])

/-- One iteration of the compatibility loop: `sjson.SetBytes` on the path
`input.<i>.role` with value `"user"` (the element is an object whenever the
loop guard fired). -/
def setInputRole (o : JObject) (i : Nat) : JObject :=
  match getKey o "input" with
  | some (JValue.arr items) =>
    match items[i]? with
    | some (JValue.obj fields) =>
      setKey o "input" (JValue.arr (items.set i (JValue.obj (setKey fields "role" (JValue.str "user")))))
    | _ => o
  | _ => o

/-- The `role` field of an `input` element, as `gjson` reads it
(`items[i].Get("role")`; missing or non-object yields the null result). -/
def itemRole (v : JValue) : JValue :=
  (match v with
   | JValue.obj fields => getKey fields "role"
   | _ => none).getD JValue.null

/-- The loop guard of `applyCodexCompatibilityMode`:
`strings.EqualFold(role.String(), "system")`. -/
def isSystemRoleItem (v : JValue) : Bool :=
  strEqFold (jStringOf (itemRole v)) "system"

/-- One iteration of the compatibility loop over the snapshot `items`:
check the role in the snapshot, patch the document when it folds to
`system`. -/
def compatLoopStep (items : List JValue) (acc : JObject) (i : Nat) : JObject :=
  match items[i]? with
  | some it => if isSystemRoleItem it then setInputRole acc i else acc
  | none => acc

/-- Go `applyCodexCompatibilityMode`: delete `instructions`, then walk the
`input` array (snapshot taken once, as in the Go code) and rewrite the role
of every element whose `role` equals `"system"` case-insensitively. -/
def applyCodexCompatibilityMode (payload : JObject) : JObject :=
  let out := deleteKey payload "instructions"
  match getKey out "input" with
  | some (JValue.arr items) =>
    (List.range items.length).foldl (compatLoopStep items) out
  | _ => out

/-- The `enableWebSearch` patch of `applyCodexCommandSettings`: inject the
default web-search tool when no non-empty `tools` array exists. -/
def applyWebSearchPatch (o : JObject) : JObject :=
  match getKey o "tools" with
  | some (JValue.arr (_ :: _)) => o
  | _ => setKey o "tools" (JValue.arr [JValue.obj [("type", JValue.str "web_search")]])

/-- Go `applyCodexCommandSettings`: the four independent optional patches, in
source order. -/
def applyCodexCommandSettings (payload : JObject) (settings : CodexSettings) : JObject :=
  let out := payload
  let out := if settings.ReasoningEffort ≠ "" then
    setPath2 out "reasoning" "effort" (JValue.str settings.ReasoningEffort) else out
  let out := if settings.ReasoningSummary ≠ "" then
    setPath2 out "reasoning" "summary" (JValue.str settings.ReasoningSummary) else out
  let out := if settings.CompatibilityMode then applyCodexCompatibilityMode out else out
  let out := if settings.EnableWebSearch then applyWebSearchPatch out else out
  out

/-- Go `annotateCodexOriginalRequest` on a valid, non-empty original request
(the Go function returns invalid or empty byte payloads unchanged; a
`JObject` always models a valid non-empty document). -/
def annotateCodexOriginalRequest (original : JObject) (settings : CodexSettings) : JObject :=
  let payload : JObject :=
    [("reasoning_compat", JValue.str settings.ReasoningCompat)]
    ++ (if settings.Verbose then [("verbose", JValue.bool true)] else [])
    ++ (if settings.VerboseObfuscation then [("verbose_obfuscation", JValue.bool true)] else [])
    ++ (if settings.CompatibilityMode then [("compatibility_mode", JValue.bool true)] else [])
  setKey original "__codex_settings" (JValue.obj payload)

/-! ## Vendor events (the `gjson` views of a Codex SSE data line) -/

/-- The `response.usage` object: every counter is independently optional.
`reasoning_tokens` stands for the nested path
`output_tokens_details.reasoning_tokens`. -/
structure CodexUsage where
  output_tokens : Option Int := none
  total_tokens : Option Int := none
  input_tokens : Option Int := none
  reasoning_tokens : Option Int := none
deriving DecidableEq

/-- An element of a reasoning item's `summary` array. -/
structure CodexSummaryItem where
  type : String := ""
  text : String := ""
deriving DecidableEq

/-- An element of an output item's `content` array (`text` and `type` default
to `""` when the JSON field is missing, as `gjson.String()` does). -/
structure CodexContentItem where
  type : String := ""
  text : String := ""
deriving DecidableEq

/-- An output item (both the streaming `item` of `response.output_item.done`
and an element of the terminal response's `output` array). -/
structure CodexItem where
  type : String := ""
  call_id : Option String := none
  name : Option String := none
  arguments : Option String := none
  summary : Option (List CodexSummaryItem) := none
  content : Option (List CodexContentItem) := none
  text : Option String := none
deriving DecidableEq

/-- The terminal `response` object (every field optional, mirroring the
`Exists()` checks of the Go code). -/
structure CodexResponse where
  id : Option String := none
  created_at : Option Int := none
  model : Option String := none
  usage : Option CodexUsage := none
  output : Option (List CodexItem) := none
  status : Option String := none
deriving DecidableEq

/-- One parsed vendor event: the fields the translator reads via `gjson`. -/
structure CodexEvent where
  type : String
  delta : Option String := none
  item : Option CodexItem := none
  response : Option CodexResponse := none
  model : Option String := none
deriving DecidableEq

/-! ## Output chunks (the sjson-built SSE template) -/

/-- A tool-call delta entry (the `functionCallItemTemplate` of the Go code,
with `function.name` / `function.arguments` flattened). -/
structure ToolCallDelta where
  index : Int
  id : String
  type : String
  name : String
  arguments : String
deriving DecidableEq

/-- The `reasoning` field of a delta/message: legacy/current write a plain
string, o3 writes `{"content":[{"type":"text","text":…}]}` (modelled as the
list of the `text` fields). -/
inductive ReasoningVal where
  | str (s : String) : ReasoningVal
  | blocks (texts : List String) : ReasoningVal
deriving DecidableEq

/-- The `choices.0.delta` object of a streaming chunk.  `reasoning_content`
is the always-`null` placeholder of the template (the Go code never sets
it). -/
structure ChunkDelta where
  role : Option String := none
  content : Option String := none
  reasoning_content : Option String := none
  reasoning_summary : Option String := none
  reasoning : Option ReasoningVal := none
  tool_calls : Option (List ToolCallDelta) := none
deriving DecidableEq

/-- The `usage` object of an emitted chunk / final response. -/
structure ChunkUsage where
  completion_tokens : Option Int := none
  total_tokens : Option Int := none
  prompt_tokens : Option Int := none
  reasoning_tokens : Option Int := none
deriving DecidableEq

/-- One streaming chunk (`chat.completion.chunk` with a single choice). -/
structure Chunk where
  id : String
  created : Int
  model : String
  delta : ChunkDelta
  finish_reason : Option String := none
  native_finish_reason : Option String := none
  usage : Option ChunkUsage := none
deriving DecidableEq

/-- The per-field usage copy both translators perform: each counter is set
independently when present; the target `usage` object exists only when at
least one `sjson.Set` ran. -/
def usageFromCodex (u : CodexUsage) : Option ChunkUsage :=
  if u.output_tokens = none ∧ u.total_tokens = none ∧ u.input_tokens = none ∧
     u.reasoning_tokens = none then none
  else some { completion_tokens := u.output_tokens, total_tokens := u.total_tokens,
              prompt_tokens := u.input_tokens, reasoning_tokens := u.reasoning_tokens }

/-! ## Streaming translator (`ConvertCodexResponseToOpenAI`) -/

/-- `ConvertCliToOpenAIParams`: the conversion state threaded through the
streaming calls. -/
structure ConvertCliToOpenAIParams where
  ResponseID : String
  CreatedAt : Int
  Model : String
  FunctionCallIndex : Int
  ReasoningCompat : String
  ThinkOpen : Bool
  ThinkClosed : Bool
  SawAnySummary : Bool
  PendingSummary : Bool
deriving DecidableEq

/-- The state created on the first call (`*param == nil` branch). -/
def initConvertParams (modelName : String) : ConvertCliToOpenAIParams :=
  { ResponseID := "", CreatedAt := 0, Model := modelName, FunctionCallIndex := -1,
    ReasoningCompat := "", ThinkOpen := false, ThinkClosed := false,
    SawAnySummary := false, PendingSummary := false }

/-- The chunk template after the pre-dispatch `sjson.Set`s: `model` from the
event's top-level `model` field (placeholder `"model"` otherwise), `created`
and `id` from the state, usage copied from `response.usage` when present. -/
def mkChunkTemplate (p : ConvertCliToOpenAIParams) (ev : CodexEvent) : Chunk :=
  { id := p.ResponseID
  , created := p.CreatedAt
  , model := ev.model.getD "model"
  , delta := {}
  , finish_reason := none
  , native_finish_reason := none
  , usage := (ev.response.bind (·.usage)).bind usageFromCodex }

/-- `makeContentChunk`. -/
def makeContentChunk (t : Chunk) (text : String) : Chunk :=
  { t with delta := { t.delta with role := some "assistant", content := some text } }

/-- `makeReasoningSummaryChunk`: sets the delta's `reasoning_summary` and
`reasoning` to the same text. -/
def makeReasoningSummaryChunk (t : Chunk) (text : String) : Chunk :=
  { t with delta :=
      { t.delta with
          role := some "assistant"
          reasoning_summary := some text
          reasoning := some (ReasoningVal.str text) } }

/-- `makeReasoningChunk`. -/
def makeReasoningChunk (t : Chunk) (text : String) : Chunk :=
  { t with delta :=
      { t.delta with
          role := some "assistant"
          reasoning := some (ReasoningVal.str text) } }

/-- `makeO3ReasoningChunk`. -/
def makeO3ReasoningChunk (t : Chunk) (text : String) : Chunk :=
  { t with delta :=
      { t.delta with
          role := some "assistant"
          reasoning := some (ReasoningVal.blocks [text]) } }

/-- The dispatch of `ConvertCodexResponseToOpenAI` after the lazy compat
resolution: `p` is the state with `ReasoningCompat` already filled, and the
chunk template has been built from it. -/
def convertStep (rev : String → Option String)
    (p : ConvertCliToOpenAIParams) (ev : CodexEvent) :
    ConvertCliToOpenAIParams × List Chunk :=
  let compat := p.ReasoningCompat
  let template := mkChunkTemplate p ev
  if ev.type = "response.reasoning_summary_part.added" then
    if compat = "think-tags" ∨ compat = "o3" then
      if p.SawAnySummary then ({ p with PendingSummary := true }, [])
      else ({ p with SawAnySummary := true }, [])
    else (p, [])
  else if ev.type = "response.reasoning_summary_text.delta" ∨
          ev.type = "response.reasoning_text.delta" then
    let delta := ev.delta.getD ""
    if compat = "o3" then
      if ev.type = "response.reasoning_summary_text.delta" ∧ p.PendingSummary then
        ({ p with PendingSummary := false },
         [makeO3ReasoningChunk template "\n", makeO3ReasoningChunk template delta])
      else (p, [makeO3ReasoningChunk template delta])
    else if compat = "legacy" ∨ compat = "current" then
      if ev.type = "response.reasoning_summary_text.delta" then
        (p, [makeReasoningSummaryChunk template delta])
      else (p, [makeReasoningChunk template delta])
    else
      let st1 := if ¬ p.ThinkOpen ∧ ¬ p.ThinkClosed then
        ({ p with ThinkOpen := true }, [makeContentChunk template "<think>"])
        else (p, ([] : List Chunk))
      let st2 := if ev.type = "response.reasoning_summary_text.delta" ∧ st1.1.PendingSummary then
        ({ st1.1 with PendingSummary := false }, st1.2 ++ [makeContentChunk template "\n"])
        else st1
      (st2.1, st2.2 ++ [makeContentChunk template delta])
  else if ev.type = "response.reasoning_summary_text.done" then (p, [])
  else if ev.type = "response.output_text.delta" then
    match ev.delta with
    | some d => (p, [makeContentChunk template d])
    | none => (p, [])
  else if ev.type = "response.completed" then
    let finishReason := if p.FunctionCallIndex ≠ -1 then "tool_calls" else "stop"
    let t := { template with finish_reason := some finishReason,
                             native_finish_reason := some finishReason }
    -- NB: in the Go code the `makeContentChunk` closure reads `template`
    -- after the two finish-reason `sjson.Set`s, so the closing chunk also
    -- carries the finish reason.
    if compat = "think-tags" ∧ p.ThinkOpen ∧ ¬ p.ThinkClosed then
      ({ p with ThinkOpen := false, ThinkClosed := true },
       [makeContentChunk t "</think>", t])
    else (p, [t])
  else if ev.type = "response.output_item.done" then
    match ev.item with
    | some item =>
      if item.type ≠ "function_call" then (p, [])
      else
        let idx := p.FunctionCallIndex + 1
        let name0 := item.name.getD ""
        let entry : ToolCallDelta :=
          { index := idx, id := item.call_id.getD "", type := "function",
            name := (rev name0).getD name0, arguments := item.arguments.getD "" }
        ({ p with FunctionCallIndex := idx },
         [{ template with delta :=
             { template.delta with
                 role := some "assistant"
                 tool_calls := some [entry] } }])
    | none =>
      -- the Go switch case falls through to `return []string{template}`
      (p, [template])
  else (p, [])

/-- The lazy compat resolution performed before dispatch. -/
def fillCompat (orig : JObject) (p0 : ConvertCliToOpenAIParams) :
    ConvertCliToOpenAIParams :=
  if p0.ReasoningCompat = "" then
    { p0 with ReasoningCompat := resolveCodexReasoningCompat orig } else p0

/-- Go `ConvertCodexResponseToOpenAI`, as a pure step function: one vendor
event in, the updated state and the emitted chunks out.  `orig` is the
original request (for the lazy compat resolution) and `rev` the reverse
tool-name lookup built from it. -/
def ConvertCodexResponseToOpenAI (orig : JObject) (rev : String → Option String)
    (p0 : ConvertCliToOpenAIParams) (ev : CodexEvent) :
    ConvertCliToOpenAIParams × List Chunk :=
  if ev.type = "response.created" then
    ({ p0 with ResponseID := (ev.response.bind (·.id)).getD ""
             , CreatedAt := (ev.response.bind (·.created_at)).getD 0
             , Model := (ev.response.bind (·.model)).getD "" }, [])
  else
    convertStep rev (fillCompat orig p0) ev

/-- Feed events one at a time from a given state, collecting emitted chunks
after those already accumulated. -/
def runCodexStreamFrom (orig : JObject) (rev : String → Option String)
    (acc : ConvertCliToOpenAIParams × List Chunk) :
    List CodexEvent → ConvertCliToOpenAIParams × List Chunk
  | [] => acc
  | ev :: rest =>
    let r := ConvertCodexResponseToOpenAI orig rev acc.1 ev
    runCodexStreamFrom orig rev (r.1, acc.2 ++ r.2) rest

/-- Feed a whole event sequence to the streaming translator from a fresh
state, collecting the emitted chunks in order. -/
def runCodexStream (orig : JObject) (rev : String → Option String)
    (modelName : String) (evs : List CodexEvent) :
    ConvertCliToOpenAIParams × List Chunk :=
  runCodexStreamFrom orig rev (initConvertParams modelName, []) evs

/-! ## Non-stream translator (`ConvertCodexResponseToOpenAINonStream`) -/

/-- `joinReasoningText`. -/
def joinReasoningText (summary full : String) : String :=
  let s := trimStr summary
  let f := trimStr full
  if s = "" then f
  else if f = "" then s
  else s ++ "\n\n" ++ f

/-- A non-stream tool call (no streaming index). -/
structure ToolCall where
  id : String
  type : String
  name : String
  arguments : String
deriving DecidableEq

/-- The `choices.0.message` object of the final response.
`reasoning_content` models the template's `null` placeholder. -/
structure NSMessage where
  role : String
  content : Option String := none
  reasoning_content : Option String := none
  reasoning_summary : Option String := none
  reasoning : Option ReasoningVal := none
  tool_calls : Option (List ToolCall) := none
deriving DecidableEq

/-- The final `chat.completion` response (single choice). -/
structure NSResponse where
  id : String
  created : Int
  model : String
  message : NSMessage
  finish_reason : Option String := none
  native_finish_reason : Option String := none
  usage : Option ChunkUsage := none
deriving DecidableEq

/-- `applyCodexReasoningCompatToMessage`. -/
def applyCodexReasoningCompatToMessage (message : NSMessage)
    (summary full compat : String) : NSMessage :=
  let compat := normalizeCodexReasoningCompat compat
  if compat = "o3" then
    let combined := joinReasoningText summary full
    if combined ≠ "" then
      { message with reasoning := some (ReasoningVal.blocks [combined]) }
    else message
  else if compat = "legacy" ∨ compat = "current" then
    let m1 := if trimStr summary ≠ "" then
      { message with reasoning_summary := some summary } else message
    if trimStr full ≠ "" then { m1 with reasoning := some (ReasoningVal.str full) } else m1
  else
    let combined := joinReasoningText summary full
    if combined = "" then message
    else
      let thinkBlock := "<think>" ++ combined ++ "</think>"
      match message.content with
      | some c => { message with content := some (thinkBlock ++ c) }
      | none => { message with content := some thinkBlock }

/-- The accumulator of the non-stream output walk. -/
structure NSAccum where
  contentText : String := ""
  reasoningSummaryText : String := ""
  reasoningFullText : String := ""
  toolCalls : List ToolCall := []

/-- The `"\n\n"`-joined accumulation used for reasoning text: trimmed pieces
are appended, empty pieces are skipped. -/
def appendJoined (acc piece : String) : String :=
  if piece = "" then acc
  else if acc = "" then piece
  else acc ++ "\n\n" ++ piece

/-- One iteration of the non-stream walk over `response.output`. -/
def nsProcessItem (rev : String → Option String) (acc : NSAccum) (item : CodexItem) :
    NSAccum :=
  if item.type = "reasoning" then
    let a1 := match item.summary with
      | some sitems =>
        sitems.foldl
          (fun a si =>
            if si.type = "summary_text" then
              { a with reasoningSummaryText :=
                  appendJoined a.reasoningSummaryText (trimStr si.text) }
            else a)
          acc
      | none => acc
    let a2 := match item.content with
      | some citems =>
        citems.foldl
          (fun a ci =>
            { a with reasoningFullText := appendJoined a.reasoningFullText (trimStr ci.text) })
          a1
      | none => a1
    match item.text with
    | some t => { a2 with reasoningFullText := appendJoined a2.reasoningFullText (trimStr t) }
    | none => a2
  else if item.type = "message" then
    match item.content with
    | some citems =>
      match citems.find? (fun ci => ci.type = "output_text") with
      | some ci => { acc with contentText := ci.text }
      | none => acc
    | none => acc
  else if item.type = "function_call" then
    let tc : ToolCall :=
      { id := item.call_id.getD ""
      , type := "function"
      , name := match item.name with
          | some n => (rev n).getD n
          | none => ""
      , arguments := item.arguments.getD "" }
    { acc with toolCalls := acc.toolCalls ++ [tc] }
  else acc

/-- Go `ConvertCodexResponseToOpenAINonStream`: the complete terminal event
in, one final response out (`none` models the empty-string result).
`nowUnix` models `time.Now().Unix()` (the `created` fallback). -/
def ConvertCodexResponseToOpenAINonStream (orig : JObject)
    (rev : String → Option String) (nowUnix : Int) (ev : CodexEvent) :
    Option NSResponse :=
  if ev.type ≠ "response.completed" then none
  else
    let compat := resolveCodexReasoningCompat orig
    let r := ev.response.getD {}
    let baseMsg : NSMessage := { role := "assistant" }
    let message :=
      match r.output with
      | some items =>
        let acc := items.foldl (nsProcessItem rev) {}
        let m : NSMessage :=
          { baseMsg with
              content := if acc.contentText ≠ "" then some acc.contentText else none
            , tool_calls := if acc.toolCalls ≠ [] then some acc.toolCalls else none }
        applyCodexReasoningCompatToMessage m acc.reasoningSummaryText acc.reasoningFullText compat
      | none => baseMsg
    some
      { id := r.id.getD ""
      , created := r.created_at.getD nowUnix
      , model := r.model.getD "model"
      , message := message
      , finish_reason := if r.status = some "completed" then some "stop" else none
      , native_finish_reason := if r.status = some "completed" then some "stop" else none
      , usage := r.usage.bind usageFromCodex }

/-! ## Helper lemmas: characters, trimming, lowering -/

theorem charToNat_ofNat (n : Nat) (h : n.isValidChar) : (Char.ofNat n).toNat = n := by
  rw [Char.ofNat, dif_pos h]
  simp [Char.ofNatAux, Char.toNat, UInt32.toNat]

theorem toLower_idem (c : Char) : Char.toLower (Char.toLower c) = Char.toLower c := by
  unfold Char.toLower
  by_cases h : c.toNat ≥ 65 ∧ c.toNat ≤ 90
  · rw [if_pos h]
    have ht : (Char.ofNat (c.toNat + 32)).toNat = c.toNat + 32 :=
      charToNat_ofNat _ (Or.inl (by omega))
    rw [if_neg (by rw [ht]; omega)]
  · rw [if_neg h, if_neg h]

theorem goIsSpace_toLower (c : Char) : goIsSpace (Char.toLower c) = goIsSpace c := by
  unfold Char.toLower
  by_cases h : c.toNat ≥ 65 ∧ c.toNat ≤ 90
  · rw [if_pos h]
    have ht : (Char.ofNat (c.toNat + 32)).toNat = c.toNat + 32 :=
      charToNat_ofNat _ (Or.inl (by omega))
    unfold goIsSpace
    rw [ht, decide_eq_decide]
    omega
  · rw [if_neg h]

theorem map_toLower_idem (l : List Char) :
    (l.map Char.toLower).map Char.toLower = l.map Char.toLower := by
  rw [List.map_map]
  exact List.map_congr_left (fun c _ => toLower_idem c)

theorem trimChars_map_toLower (l : List Char) :
    trimChars (l.map Char.toLower) = (trimChars l).map Char.toLower := by
  unfold trimChars
  have hpf : (goIsSpace ∘ Char.toLower) = goIsSpace := funext goIsSpace_toLower
  rw [List.dropWhile_map, hpf, ← List.map_reverse, List.dropWhile_map, hpf, ← List.map_reverse]

theorem dropWhile_append_of_forall {p : Char → Bool} {ws l : List Char}
    (h : ∀ c ∈ ws, p c) : (ws ++ l).dropWhile p = l.dropWhile p := by
  induction ws with
  | nil => rfl
  | cons c cs ih =>
    have hc : p c := h c (by simp)
    simp only [List.cons_append, List.dropWhile_cons, hc, if_true]
    exact ih (fun x hx => h x (by simp [hx]))

theorem dropWhile_append_left {p : Char → Bool} {l m : List Char}
    (h : l.dropWhile p ≠ []) : (l ++ m).dropWhile p = l.dropWhile p ++ m := by
  induction l with
  | nil => simp at h
  | cons a l ih =>
    by_cases hpa : p a
    · simp only [List.cons_append, List.dropWhile_cons, hpa, if_true] at h ⊢
      exact ih h
    · simp [List.cons_append, List.dropWhile_cons, hpa]

theorem trimChars_pad (l ws₁ ws₂ : List Char)
    (h₁ : ∀ c ∈ ws₁, goIsSpace c) (h₂ : ∀ c ∈ ws₂, goIsSpace c) :
    trimChars (ws₁ ++ l ++ ws₂) = trimChars l := by
  unfold trimChars
  rw [List.append_assoc, dropWhile_append_of_forall h₁]
  by_cases hnil : l.dropWhile goIsSpace = []
  · have hall : ∀ c ∈ l, goIsSpace c := by
      intro c hc
      exact List.dropWhile_eq_nil_iff.mp hnil c hc
    rw [dropWhile_append_of_forall hall, hnil]
    have : ws₂.dropWhile goIsSpace = [] := List.dropWhile_eq_nil_iff.mpr h₂
    simp [this]
  · rw [dropWhile_append_left hnil, List.reverse_append,
      dropWhile_append_of_forall (fun c hc => h₂ c (List.mem_reverse.mp hc))]

theorem normKey_lower (s : String) : normKey (lowerStr s) = normKey s := by
  unfold normKey lowerStr
  apply congrArg String.mk
  show ((trimChars (s.data.map Char.toLower)).map Char.toLower) = _
  rw [trimChars_map_toLower, map_toLower_idem]

theorem normKey_pad (s : String) (ws₁ ws₂ : List Char)
    (h₁ : ∀ c ∈ ws₁, goIsSpace c) (h₂ : ∀ c ∈ ws₂, goIsSpace c) :
    normKey (String.mk (ws₁ ++ s.data ++ ws₂)) = normKey s := by
  unfold normKey
  apply congrArg String.mk
  show ((trimChars (ws₁ ++ s.data ++ ws₂)).map Char.toLower) = _
  rw [trimChars_pad _ _ _ h₁ h₂]

theorem normalize_canonical_fixed (v : String)
    (h : v = "legacy" ∨ v = "o3" ∨ v = "think-tags" ∨ v = "current") :
    normalizeCodexReasoningCompat v = v := by
  rcases h with rfl | rfl | rfl | rfl <;> decide

/-! ## C6: the reasoning-compat normalizer -/

/-- C6: `normalizeCodexReasoningCompat` is total on strings: every string
whose lower-cased, trimmed form (`normKey`) is one of the four canonical
modes maps to that mode, every other string maps to `"think-tags"`, the
function is idempotent, and it is insensitive to (ASCII) casing and to
surrounding whitespace. -/
theorem normalizeCodexReasoningCompat_spec :
    (∀ s : String,
        (normKey s = "legacy" ∨ normKey s = "o3" ∨
         normKey s = "think-tags" ∨ normKey s = "current") →
        normalizeCodexReasoningCompat s = normKey s) ∧
    (∀ s : String,
        ¬(normKey s = "legacy" ∨ normKey s = "o3" ∨
          normKey s = "think-tags" ∨ normKey s = "current") →
        normalizeCodexReasoningCompat s = "think-tags") ∧
    (∀ s : String,
        normalizeCodexReasoningCompat (normalizeCodexReasoningCompat s) =
          normalizeCodexReasoningCompat s) ∧
    (∀ s : String,
        normalizeCodexReasoningCompat (lowerStr s) = normalizeCodexReasoningCompat s) ∧
    (∀ (s : String) (ws₁ ws₂ : List Char),
        (∀ c ∈ ws₁, goIsSpace c) → (∀ c ∈ ws₂, goIsSpace c) →
        normalizeCodexReasoningCompat (String.mk (ws₁ ++ s.data ++ ws₂)) =
          normalizeCodexReasoningCompat s) := by
  refine ⟨?_, ?_, ?_, ?_, ?_⟩
  · intro s h
    unfold normalizeCodexReasoningCompat normFromKey
    rw [if_pos h]
  · intro s h
    unfold normalizeCodexReasoningCompat normFromKey
    rw [if_neg h]
  · intro s
    show normalizeCodexReasoningCompat (normFromKey (normKey s)) = normFromKey (normKey s)
    unfold normFromKey
    split
    · exact normalize_canonical_fixed _ ‹_›
    · decide
  · intro s
    unfold normalizeCodexReasoningCompat
    rw [normKey_lower]
  · intro s ws₁ ws₂ h₁ h₂
    unfold normalizeCodexReasoningCompat
    rw [normKey_pad _ _ _ h₁ h₂]

/-- Witness for C6 at concrete inputs. -/
theorem normalizeCodexReasoningCompat_spec_witness :
    normalizeCodexReasoningCompat "  LEGACY  " = "legacy" ∧
    normalizeCodexReasoningCompat "bogus" = "think-tags" ∧
    normalizeCodexReasoningCompat (String.mk (" ".data ++ "o3".data ++ " ".data)) =
      normalizeCodexReasoningCompat "o3" := by
  refine ⟨?_, ?_, ?_⟩
  · have h := normalizeCodexReasoningCompat_spec.1 "  LEGACY  " (by decide)
    rw [h]
    decide
  · exact normalizeCodexReasoningCompat_spec.2.1 "bogus" (by decide)
  · exact normalizeCodexReasoningCompat_spec.2.2.2.2 "o3" " ".data " ".data
      (by decide) (by decide)

/-! ## C7: settings annotation round-trip -/

theorem getKey_setKey_self (o : JObject) (k : String) (v : JValue) :
    getKey (setKey o k v) k = some v := by
  induction o with
  | nil => simp [setKey, getKey]
  | cons kv rest ih =>
    by_cases h : kv.1 = k
    · simp [setKey, getKey, h]
    · simp [setKey, getKey, h, ih]

/-- C7: annotating a (valid, non-empty) original request and then resolving
the compat mode from it yields exactly the normalization of the annotated
`ReasoningCompat`, hence exactly the annotated mode whenever that mode is one
of the four canonical `ReasoningCompatMode` values. -/
theorem annotate_resolve_roundtrip :
    (∀ (original : JObject) (settings : CodexSettings),
        resolveCodexReasoningCompat (annotateCodexOriginalRequest original settings) =
          normalizeCodexReasoningCompat settings.ReasoningCompat) ∧
    (∀ (original : JObject) (settings : CodexSettings),
        (settings.ReasoningCompat = "legacy" ∨ settings.ReasoningCompat = "o3" ∨
         settings.ReasoningCompat = "think-tags" ∨ settings.ReasoningCompat = "current") →
        resolveCodexReasoningCompat (annotateCodexOriginalRequest original settings) =
          settings.ReasoningCompat) := by
  have h1 : ∀ (original : JObject) (settings : CodexSettings),
      resolveCodexReasoningCompat (annotateCodexOriginalRequest original settings) =
        normalizeCodexReasoningCompat settings.ReasoningCompat := by
    intro original settings
    unfold annotateCodexOriginalRequest resolveCodexReasoningCompat getPath2
    rw [getKey_setKey_self]
    simp [getKey, jStringOf]
  refine ⟨h1, fun original settings h => ?_⟩
  rw [h1, normalize_canonical_fixed _ h]

/-- Witness for C7 at a concrete request/settings pair. -/
theorem annotate_resolve_roundtrip_witness :
    resolveCodexReasoningCompat
      (annotateCodexOriginalRequest [("input", JValue.arr [])]
        { ReasoningCompat := "o3", Verbose := true }) = "o3" :=
  annotate_resolve_roundtrip.2 [("input", JValue.arr [])]
    { ReasoningCompat := "o3", Verbose := true } (by simp)

/-! ## C9: the non-stream translator rejects non-terminal objects -/

/-- C9: on any input object whose `type` is not `response.completed` the
non-stream translator returns the empty result. -/
theorem nonstream_rejects_nonterminal (orig : JObject) (rev : String → Option String)
    (nowUnix : Int) (ev : CodexEvent) (h : ev.type ≠ "response.completed") :
    ConvertCodexResponseToOpenAINonStream orig rev nowUnix ev = none := by
  unfold ConvertCodexResponseToOpenAINonStream
  simp [h]

/-- Witness for C9 at a concrete non-terminal event. -/
theorem nonstream_rejects_nonterminal_witness :
    ConvertCodexResponseToOpenAINonStream [] (fun _ => none) 0
      { type := "response.output_text.delta", delta := some "Hi" } = none :=
  nonstream_rejects_nonterminal [] (fun _ => none) 0
    { type := "response.output_text.delta", delta := some "Hi" } (by decide)

/-! ## C10: legacy/current summary deltas fill both reasoning fields -/

/-- C10: in `legacy` and `current` modes, every chunk emitted for a
`response.reasoning_summary_text.delta` event carries the delta text in both
the `reasoning_summary` field and the `reasoning` field of its delta, with
role `"assistant"`. -/
theorem legacy_current_summary_delta_sets_both (orig : JObject)
    (rev : String → Option String) (p : ConvertCliToOpenAIParams)
    (ev : CodexEvent) (d : String)
    (hc : p.ReasoningCompat = "legacy" ∨ p.ReasoningCompat = "current")
    (hty : ev.type = "response.reasoning_summary_text.delta")
    (hd : ev.delta = some d) :
    (ConvertCodexResponseToOpenAI orig rev p ev).2.length = 1 ∧
    ∀ c ∈ (ConvertCodexResponseToOpenAI orig rev p ev).2,
      c.delta.reasoning_summary = some d ∧
      c.delta.reasoning = some (ReasoningVal.str d) ∧
      c.delta.role = some "assistant" := by
  have hne : ¬ p.ReasoningCompat = "" := by
    rcases hc with hc | hc <;> rw [hc] <;> decide
  rcases hc with hc | hc <;>
    simp [ConvertCodexResponseToOpenAI, convertStep, fillCompat, hty, hd, hne, hc,
      makeReasoningSummaryChunk]

/-- Witness for C10 at a concrete state and event. -/
theorem legacy_current_summary_delta_sets_both_witness :
    (ConvertCodexResponseToOpenAI [] (fun _ => none)
      { initConvertParams "m" with ReasoningCompat := "current" }
      { type := "response.reasoning_summary_text.delta", delta := some "why" }).2.length = 1 ∧
    ∀ c ∈ (ConvertCodexResponseToOpenAI [] (fun _ => none)
      { initConvertParams "m" with ReasoningCompat := "current" }
      { type := "response.reasoning_summary_text.delta", delta := some "why" }).2,
      c.delta.reasoning_summary = some "why" ∧
      c.delta.reasoning = some (ReasoningVal.str "why") ∧
      c.delta.role = some "assistant" :=
  legacy_current_summary_delta_sets_both [] (fun _ => none)
    { initConvertParams "m" with ReasoningCompat := "current" }
    { type := "response.reasoning_summary_text.delta", delta := some "why" } "why"
    (Or.inr rfl) rfl rfl

/-! ## C2: the end-to-end `current`-mode scenario -/

/-- C2 (code-bug evidence): on the event sequence
`[response.created{id:"r1",model:"m1"}, response.output_text.delta{delta:"Hi"},
response.completed]` under compat `current`, the translator emits exactly the
claimed two chunks — content `"Hi"` then finish `"stop"`, both with id `"r1"`
— but both chunks carry the template placeholder model `"model"`, not
`"m1"`: the model captured from `response.created` is stored in the state and
never written into any chunk. -/
theorem c2_stream_model_placeholder :
    (runCodexStream [("__codex_settings", JValue.obj [("reasoning_compat", JValue.str "current")])]
        (fun _ => none) "m1"
        [ { type := "response.created",
            response := some { id := some "r1", created_at := some 100, model := some "m1" } }
        , { type := "response.output_text.delta", delta := some "Hi" }
        , { type := "response.completed" } ]).2.map
      (fun c => (c.id, c.model, c.delta.content, c.finish_reason)) =
      [("r1", "model", some "Hi", none), ("r1", "model", none, some "stop")] ∧
    ("model" : String) ≠ "m1" := by
  constructor
  · decide
  · decide

/-! ## C5: pending-summary separators -/

/-- C5: after a `reasoning_summary_part.added` that follows an already-seen
summary, the next `reasoning_summary_text.delta` is preceded immediately by a
newline separator chunk, in `o3` mode and in `think-tags` mode; in `legacy`
and `current` modes a reasoning delta always produces exactly one chunk (no
separator) and `reasoning_summary_part.added` produces nothing and leaves the
pending flag unchanged. -/
theorem pending_summary_separator_spec :
    (∀ (orig : JObject) (rev : String → Option String) (p : ConvertCliToOpenAIParams)
        (evp evd : CodexEvent) (d : String),
        p.ReasoningCompat = "o3" → p.SawAnySummary = true →
        evp.type = "response.reasoning_summary_part.added" →
        evd.type = "response.reasoning_summary_text.delta" → evd.delta = some d →
        (ConvertCodexResponseToOpenAI orig rev p evp).2 = [] ∧
        (ConvertCodexResponseToOpenAI orig rev
            (ConvertCodexResponseToOpenAI orig rev p evp).1 evd).2 =
          [ makeO3ReasoningChunk
              (mkChunkTemplate (ConvertCodexResponseToOpenAI orig rev p evp).1 evd) "\n"
          , makeO3ReasoningChunk
              (mkChunkTemplate (ConvertCodexResponseToOpenAI orig rev p evp).1 evd) d ]) ∧
    (∀ (orig : JObject) (rev : String → Option String) (p : ConvertCliToOpenAIParams)
        (evp evd : CodexEvent) (d : String),
        p.ReasoningCompat = "think-tags" → p.SawAnySummary = true →
        evp.type = "response.reasoning_summary_part.added" →
        evd.type = "response.reasoning_summary_text.delta" → evd.delta = some d →
        (ConvertCodexResponseToOpenAI orig rev p evp).2 = [] ∧
        ∃ pre,
          (ConvertCodexResponseToOpenAI orig rev
              (ConvertCodexResponseToOpenAI orig rev p evp).1 evd).2 =
            pre ++
            [ makeContentChunk
                (mkChunkTemplate (ConvertCodexResponseToOpenAI orig rev p evp).1 evd) "\n"
            , makeContentChunk
                (mkChunkTemplate (ConvertCodexResponseToOpenAI orig rev p evp).1 evd) d ]) ∧
    (∀ (orig : JObject) (rev : String → Option String) (p : ConvertCliToOpenAIParams)
        (ev : CodexEvent),
        (p.ReasoningCompat = "legacy" ∨ p.ReasoningCompat = "current") →
        ((ev.type = "response.reasoning_summary_text.delta" ∨
          ev.type = "response.reasoning_text.delta") →
          (ConvertCodexResponseToOpenAI orig rev p ev).2.length = 1) ∧
        (ev.type = "response.reasoning_summary_part.added" →
          (ConvertCodexResponseToOpenAI orig rev p ev).2 = [] ∧
          (ConvertCodexResponseToOpenAI orig rev p ev).1.PendingSummary = p.PendingSummary)) := by
  refine ⟨?_, ?_, ?_⟩
  · intro orig rev p evp evd d hc hsaw htp htd hd
    have hne : ¬ p.ReasoningCompat = "" := by rw [hc]; decide
    constructor
    · simp [ConvertCodexResponseToOpenAI, convertStep, fillCompat, htp, hne, hc, hsaw]
    · simp [ConvertCodexResponseToOpenAI, convertStep, fillCompat, htp, htd, hne, hc, hsaw, hd]
  · intro orig rev p evp evd d hc hsaw htp htd hd
    have hne : ¬ p.ReasoningCompat = "" := by rw [hc]; decide
    refine ⟨by simp [ConvertCodexResponseToOpenAI, convertStep, fillCompat, htp, hne, hc, hsaw], ?_⟩
    by_cases hopen : p.ThinkOpen = false ∧ p.ThinkClosed = false
    · refine ⟨[makeContentChunk
        (mkChunkTemplate (ConvertCodexResponseToOpenAI orig rev p evp).1 evd) "<think>"], ?_⟩
      simp [ConvertCodexResponseToOpenAI, convertStep, fillCompat, htp, htd, hne, hc, hsaw, hd, hopen]
    · refine ⟨[], ?_⟩
      simp [ConvertCodexResponseToOpenAI, convertStep, fillCompat, htp, htd, hne, hc, hsaw, hd, hopen]
  · intro orig rev p ev hc
    have hne : ¬ p.ReasoningCompat = "" := by
      rcases hc with hc | hc <;> rw [hc] <;> decide
    constructor
    · rintro (hty | hty) <;> rcases hc with hc | hc <;>
        simp [ConvertCodexResponseToOpenAI, convertStep, fillCompat, hty, hne, hc]
    · intro hty
      rcases hc with hc | hc <;>
        simp [ConvertCodexResponseToOpenAI, convertStep, fillCompat, hty, hne, hc]

/-- Witness for C5 at a concrete state and event pair (o3 mode). -/
theorem pending_summary_separator_spec_witness :
    (ConvertCodexResponseToOpenAI [] (fun _ => none)
        { initConvertParams "m" with ReasoningCompat := "o3", SawAnySummary := true }
        { type := "response.reasoning_summary_part.added" }).2 = [] ∧
    (ConvertCodexResponseToOpenAI [] (fun _ => none)
        (ConvertCodexResponseToOpenAI [] (fun _ => none)
          { initConvertParams "m" with ReasoningCompat := "o3", SawAnySummary := true }
          { type := "response.reasoning_summary_part.added" }).1
        { type := "response.reasoning_summary_text.delta", delta := some "s2" }).2 =
      [ makeO3ReasoningChunk
          (mkChunkTemplate
            (ConvertCodexResponseToOpenAI [] (fun _ => none)
              { initConvertParams "m" with ReasoningCompat := "o3", SawAnySummary := true }
              { type := "response.reasoning_summary_part.added" }).1
            { type := "response.reasoning_summary_text.delta", delta := some "s2" }) "\n"
      , makeO3ReasoningChunk
          (mkChunkTemplate
            (ConvertCodexResponseToOpenAI [] (fun _ => none)
              { initConvertParams "m" with ReasoningCompat := "o3", SawAnySummary := true }
              { type := "response.reasoning_summary_part.added" }).1
            { type := "response.reasoning_summary_text.delta", delta := some "s2" }) "s2" ] :=
  pending_summary_separator_spec.1 [] (fun _ => none)
    { initConvertParams "m" with ReasoningCompat := "o3", SawAnySummary := true }
    { type := "response.reasoning_summary_part.added" }
    { type := "response.reasoning_summary_text.delta", delta := some "s2" } "s2"
    rfl rfl rfl rfl rfl

/-! ## C4: function-call indexing -/

/-- An event that the streaming translator treats as a function-call item:
`response.output_item.done` whose item exists and has type `function_call`. -/
def isFCEvent (ev : CodexEvent) : Bool :=
  if ev.type = "response.output_item.done" then
    match ev.item with
    | some it => it.type = "function_call"
    | none => false
  else false

/-- The number of function-call items in an event list. -/
def countFC (evs : List CodexEvent) : Nat := evs.countP isFCEvent


theorem fillCompat_fci (orig : JObject) (p : ConvertCliToOpenAIParams) :
    (fillCompat orig p).FunctionCallIndex = p.FunctionCallIndex := by
  unfold fillCompat
  split <;> rfl

theorem convertStep_fci (rev : String → Option String)
    (p : ConvertCliToOpenAIParams) (ev : CodexEvent) :
    (convertStep rev p ev).1.FunctionCallIndex =
      if isFCEvent ev then p.FunctionCallIndex + 1 else p.FunctionCallIndex := by
  by_cases h6 : ev.type = "response.output_item.done"
  · rcases hit : ev.item with _ | it
    · simp [convertStep, isFCEvent, h6, hit]
    · by_cases hfc : it.type = "function_call"
      · simp [convertStep, isFCEvent, h6, hit, hfc]
      · simp [convertStep, isFCEvent, h6, hit, hfc]
  · have hnfc : isFCEvent ev = false := by simp [isFCEvent, h6]
    simp only [hnfc, Bool.false_eq_true, if_false]
    by_cases h1 : ev.type = "response.reasoning_summary_part.added"
    · simp only [convertStep, h1, if_true, eq_self_iff_true]
      repeat' split
      all_goals (first | rfl | simp_all)
    · by_cases h2 : ev.type = "response.reasoning_summary_text.delta" ∨
        ev.type = "response.reasoning_text.delta"
      · simp only [convertStep, h1, h2, if_true, if_false, eq_self_iff_true]
        repeat' split
        all_goals (first | rfl | simp_all)
      · by_cases h3 : ev.type = "response.reasoning_summary_text.done"
        · simp [convertStep, h1, h2, h3]
        · by_cases h4 : ev.type = "response.output_text.delta"
          · simp only [convertStep, h1, h2, h3, h4, if_true, if_false, eq_self_iff_true]
            repeat' split
            all_goals (first | rfl | simp_all)
          · by_cases h5 : ev.type = "response.completed"
            · simp only [convertStep, h1, h2, h3, h4, h5, if_true, if_false, eq_self_iff_true]
              repeat' split
              all_goals (first | rfl | simp_all)
            · simp [convertStep, h1, h2, h3, h4, h5, h6]

theorem step_fci (orig : JObject) (rev : String → Option String)
    (p : ConvertCliToOpenAIParams) (ev : CodexEvent) :
    (ConvertCodexResponseToOpenAI orig rev p ev).1.FunctionCallIndex =
      if isFCEvent ev then p.FunctionCallIndex + 1 else p.FunctionCallIndex := by
  unfold ConvertCodexResponseToOpenAI
  by_cases h : ev.type = "response.created"
  · have hnfc : isFCEvent ev = false := by simp [isFCEvent, h]
    simp [h, hnfc]
  · rw [if_neg h, convertStep_fci, fillCompat_fci]

theorem runFrom_fci (orig : JObject) (rev : String → Option String)
    (evs : List CodexEvent) :
    ∀ (p : ConvertCliToOpenAIParams) (cs : List Chunk),
    (runCodexStreamFrom orig rev (p, cs) evs).1.FunctionCallIndex =
      p.FunctionCallIndex + (countFC evs : Int) := by
  induction evs with
  | nil => intro p cs; simp [runCodexStreamFrom, countFC]
  | cons ev rest ih =>
    intro p cs
    rw [runCodexStreamFrom, ih, step_fci]
    unfold countFC
    rw [List.countP_cons]
    by_cases h : isFCEvent ev <;> simp [h, countFC] <;> push_cast <;> omega

theorem runCodexStream_fci (orig : JObject) (rev : String → Option String)
    (mn : String) (evs : List CodexEvent) :
    (runCodexStream orig rev mn evs).1.FunctionCallIndex = (countFC evs : Int) - 1 := by
  unfold runCodexStream
  rw [runFrom_fci]
  simp [initConvertParams]
  omega

theorem convertStep_fc_chunk (rev : String → Option String)
    (p : ConvertCliToOpenAIParams) (ev : CodexEvent) (it : CodexItem)
    (h6 : ev.type = "response.output_item.done") (hit : ev.item = some it)
    (hfc : it.type = "function_call") :
    (convertStep rev p ev).2 =
      [{ mkChunkTemplate p ev with delta :=
          { (mkChunkTemplate p ev).delta with
              role := some "assistant"
              tool_calls := some
                [{ index := p.FunctionCallIndex + 1
                 , id := it.call_id.getD ""
                 , type := "function"
                 , name := (rev (it.name.getD "")).getD (it.name.getD "")
                 , arguments := it.arguments.getD "" }] } }] := by
  have h1 : ¬ ev.type = "response.reasoning_summary_part.added" := by rw [h6]; decide
  have h2 : ¬ (ev.type = "response.reasoning_summary_text.delta" ∨
      ev.type = "response.reasoning_text.delta") := by rw [h6]; decide
  have h3 : ¬ ev.type = "response.reasoning_summary_text.done" := by rw [h6]; decide
  have h4 : ¬ ev.type = "response.output_text.delta" := by rw [h6]; decide
  have h5 : ¬ ev.type = "response.completed" := by rw [h6]; decide
  simp [convertStep, h1, h2, h3, h4, h5, h6, hit, hfc]

theorem convertStep_completed_finish (rev : String → Option String)
    (p : ConvertCliToOpenAIParams) (ev : CodexEvent)
    (h : ev.type = "response.completed") :
    ∃ c, ((convertStep rev p ev).2).getLast? = some c ∧
      c.finish_reason = some (if p.FunctionCallIndex ≠ -1 then "tool_calls" else "stop") ∧
      c.native_finish_reason = some (if p.FunctionCallIndex ≠ -1 then "tool_calls" else "stop") := by
  have h1 : ¬ ev.type = "response.reasoning_summary_part.added" := by rw [h]; decide
  have h2 : ¬ (ev.type = "response.reasoning_summary_text.delta" ∨
      ev.type = "response.reasoning_text.delta") := by rw [h]; decide
  have h3 : ¬ ev.type = "response.reasoning_summary_text.done" := by rw [h]; decide
  have h4 : ¬ ev.type = "response.output_text.delta" := by rw [h]; decide
  simp only [convertStep]
  rw [if_neg h1, if_neg h2, if_neg h3, if_neg h4, if_pos h]
  split
  · exact ⟨_, rfl, rfl, rfl⟩
  · exact ⟨_, rfl, rfl, rfl⟩

/-- C4: from a fresh state, an `output_item.done` event carrying a
`function_call` item that arrives after a prefix containing `countFC evs`
function-call items (i.e. the (`countFC evs`+1)-th such event) produces
exactly one chunk holding a single tool-call delta entry whose index is
`countFC evs` (that is, N−1 for the Nth function-call item);
`FunctionCallIndex` after any sequence equals the function-call count minus
one; and the finish chunk of a `response.completed` event reports
`"tool_calls"` iff at least one function-call item was seen, else
`"stop"`. -/
theorem function_call_indexing_spec :
    (∀ (orig : JObject) (rev : String → Option String) (mn : String)
        (evs : List CodexEvent) (ev : CodexEvent) (it : CodexItem),
        ev.type = "response.output_item.done" → ev.item = some it →
        it.type = "function_call" →
        ∃ c entry,
          (ConvertCodexResponseToOpenAI orig rev
              (runCodexStream orig rev mn evs).1 ev).2 = [c] ∧
          c.delta.tool_calls = some [entry] ∧
          entry.index = (countFC evs : Int)) ∧
    (∀ (orig : JObject) (rev : String → Option String) (mn : String)
        (evs : List CodexEvent),
        (runCodexStream orig rev mn evs).1.FunctionCallIndex =
          (countFC evs : Int) - 1) ∧
    (∀ (orig : JObject) (rev : String → Option String) (mn : String)
        (evs : List CodexEvent) (ev : CodexEvent),
        ev.type = "response.completed" →
        ∃ c,
          ((ConvertCodexResponseToOpenAI orig rev
              (runCodexStream orig rev mn evs).1 ev).2).getLast? = some c ∧
          c.finish_reason = some (if 1 ≤ countFC evs then "tool_calls" else "stop")) := by
  refine ⟨?_, ?_, ?_⟩
  · intro orig rev mn evs ev it h6 hit hfc
    have hnc : ¬ ev.type = "response.created" := by rw [h6]; decide
    unfold ConvertCodexResponseToOpenAI
    rw [if_neg hnc, convertStep_fc_chunk rev _ ev it h6 hit hfc]
    refine ⟨_, _, rfl, rfl, ?_⟩
    show (fillCompat orig (runCodexStream orig rev mn evs).1).FunctionCallIndex + 1 =
      (countFC evs : Int)
    rw [fillCompat_fci, runCodexStream_fci]
    omega
  · intro orig rev mn evs
    exact runCodexStream_fci orig rev mn evs
  · intro orig rev mn evs ev h
    have hnc : ¬ ev.type = "response.created" := by rw [h]; decide
    unfold ConvertCodexResponseToOpenAI
    rw [if_neg hnc]
    obtain ⟨c, hlast, hfin, _⟩ :=
      convertStep_completed_finish rev (fillCompat orig (runCodexStream orig rev mn evs).1) ev h
    refine ⟨c, hlast, ?_⟩
    rw [hfin]
    have hv : (fillCompat orig (runCodexStream orig rev mn evs).1).FunctionCallIndex =
        (countFC evs : Int) - 1 := by rw [fillCompat_fci, runCodexStream_fci]
    rw [hv]
    by_cases hc : 1 ≤ countFC evs
    · rw [if_pos (show ((countFC evs : Int) - 1) ≠ -1 by omega), if_pos hc]
    · rw [if_neg (show ¬ (((countFC evs : Int) - 1) ≠ -1) by omega), if_neg hc]

/-- Witness for C4 at a concrete first function-call event. -/
theorem function_call_indexing_spec_witness :
    ∃ c entry,
      (ConvertCodexResponseToOpenAI [] (fun _ => none)
          (runCodexStream [] (fun _ => none) "m" []).1
          { type := "response.output_item.done"
          , item := some { type := "function_call", call_id := some "c1",
                           name := some "f", arguments := some "a" } }).2 = [c] ∧
      c.delta.tool_calls = some [entry] ∧
      entry.index = (countFC ([] : List CodexEvent) : Int) :=
  function_call_indexing_spec.1 [] (fun _ => none) "m" []
    { type := "response.output_item.done"
    , item := some { type := "function_call", call_id := some "c1",
                     name := some "f", arguments := some "a" } }
    { type := "function_call", call_id := some "c1", name := some "f",
      arguments := some "a" } rfl rfl rfl

/-! ## C3: think-tag balance -/

/-- Prefix test on character lists. -/
def isPrefixChars : List Char → List Char → Bool
  | [], _ => true
  | _ :: _, [] => false
  | a :: as, b :: bs => a = b && isPrefixChars as bs

/-- Substring containment on character lists. -/
def containsChars (tag : List Char) : List Char → Bool
  | [] => tag.isEmpty
  | b :: bs => isPrefixChars tag (b :: bs) || containsChars tag bs

def openTagChars : List Char := "<think>".data

def closeTagChars : List Char := "</think>".data

/-- Whether a chunk's delta content contains the given tag. -/
def chunkHasTag (tag : List Char) (c : Chunk) : Bool :=
  match c.delta.content with
  | some s => containsChars tag s.data
  | none => false

/-- Number of emitted chunks whose content contains `<think>`. -/
def nOpen (cs : List Chunk) : Nat := cs.countP (chunkHasTag openTagChars)

/-- Number of emitted chunks whose content contains `</think>`. -/
def nClose (cs : List Chunk) : Nat := cs.countP (chunkHasTag closeTagChars)

/-- An event whose delta text (if any) does not itself contain the literal
think tags. -/
def cleanEvent (ev : CodexEvent) : Bool :=
  match ev.delta with
  | some d => !(containsChars openTagChars d.data) && !(containsChars closeTagChars d.data)
  | none => true

/-- Every chunk whose content contains `</think>` is preceded by a chunk
whose content contains `<think>`. -/
def openBeforeClose (cs : List Chunk) : Prop :=
  ∀ (j : Nat) (c : Chunk), cs[j]? = some c → chunkHasTag closeTagChars c = true →
    ∃ (i : Nat) (c' : Chunk), i < j ∧ cs[i]? = some c' ∧ chunkHasTag openTagChars c' = true

theorem chunkHasTag_makeContent (tag : List Char) (t : Chunk) (s : String) :
    chunkHasTag tag (makeContentChunk t s) = containsChars tag s.data := rfl

theorem openBeforeClose_append_no_close (cs ds : List Chunk)
    (h : openBeforeClose cs)
    (hd : ∀ c ∈ ds, chunkHasTag closeTagChars c = false) :
    openBeforeClose (cs ++ ds) := by
  unfold openBeforeClose at h ⊢
  intro j c hj hc
  by_cases hlt : j < cs.length
  · rw [List.getElem?_append_left hlt] at hj
    obtain ⟨i, c', hi, hci, hoc⟩ := h j c hj hc
    exact ⟨i, c', hi, by rw [List.getElem?_append_left (lt_trans hi hlt)]; exact hci, hoc⟩
  · rw [List.getElem?_append_right (le_of_not_lt hlt)] at hj
    have hmem : c ∈ ds := by
      obtain ⟨hlen, hget⟩ := List.getElem?_eq_some_iff.mp hj
      exact hget ▸ List.getElem_mem hlen
    rw [hd c hmem] at hc
    exact absurd hc (by simp)

theorem exists_open_index {cs : List Chunk} (h : 0 < nOpen cs) :
    ∃ i c, cs[i]? = some c ∧ chunkHasTag openTagChars c = true ∧ i < cs.length := by
  obtain ⟨a, hmem, hp⟩ := List.countP_pos_iff.mp h
  obtain ⟨n, hn⟩ := List.getElem?_of_mem hmem
  obtain ⟨hlen, _⟩ := List.getElem?_eq_some_iff.mp hn
  exact ⟨n, a, hn, hp, hlen⟩

theorem openBeforeClose_append_close (cs : List Chunk) (cl fin : Chunk)
    (h : openBeforeClose cs) (hopen : nOpen cs = 1)
    (hcf : chunkHasTag closeTagChars fin = false) :
    openBeforeClose (cs ++ [cl, fin]) := by
  unfold openBeforeClose at h ⊢
  intro j c hj hc
  by_cases hlt : j < cs.length
  · rw [List.getElem?_append_left hlt] at hj
    obtain ⟨i, c', hi, hci, hoc⟩ := h j c hj hc
    exact ⟨i, c', hi, by rw [List.getElem?_append_left (lt_trans hi hlt)]; exact hci, hoc⟩
  · obtain ⟨i, c', hci, hoc, hilt⟩ := exists_open_index (by omega : 0 < nOpen cs)
    rw [List.getElem?_append_right (le_of_not_lt hlt)] at hj
    rcases hd : j - cs.length with _ | j'
    · refine ⟨i, c', by omega, ?_, hoc⟩
      rw [List.getElem?_append_left hilt]
      exact hci
    · rcases hd' : j' with _ | j''
      · -- j points at `fin`
        rw [hd, hd'] at hj
        simp at hj
        rw [← hj, hcf] at hc
        exact absurd hc (by simp)
      · rw [hd, hd'] at hj
        simp at hj

theorem nOpen_append (cs ds : List Chunk) : nOpen (cs ++ ds) = nOpen cs + nOpen ds :=
  List.countP_append _ _ _

theorem nClose_append (cs ds : List Chunk) : nClose (cs ++ ds) = nClose cs + nClose ds :=
  List.countP_append _ _ _

/-- The think-block invariant maintained by the streaming translator in
think-tags mode: the `(ThinkOpen, ThinkClosed)` state determines the tag
counts of the chunks emitted so far, and every close tag is preceded by an
open tag. -/
def ThinkInv (p : ConvertCliToOpenAIParams) (cs : List Chunk) : Prop :=
  (p.ReasoningCompat = "" ∨ p.ReasoningCompat = "think-tags") ∧
  ((p.ThinkOpen = false ∧ p.ThinkClosed = false ∧ nOpen cs = 0 ∧ nClose cs = 0) ∨
   (p.ThinkOpen = true ∧ p.ThinkClosed = false ∧ nOpen cs = 1 ∧ nClose cs = 0) ∨
   (p.ThinkOpen = false ∧ p.ThinkClosed = true ∧ nOpen cs = 1 ∧ nClose cs = 1)) ∧
  openBeforeClose cs

theorem ThinkInv_extend (p q' : ConvertCliToOpenAIParams) (cs ds : List Chunk)
    (hrc' : q'.ReasoningCompat = "" ∨ q'.ReasoningCompat = "think-tags")
    (ho : q'.ThinkOpen = p.ThinkOpen) (hc : q'.ThinkClosed = p.ThinkClosed)
    (hinv : ThinkInv p cs)
    (hdo : nOpen ds = 0) (hdc : nClose ds = 0) :
    ThinkInv q' (cs ++ ds) := by
  obtain ⟨_, hstate, hord⟩ := hinv
  refine ⟨hrc', ?_, openBeforeClose_append_no_close _ _ hord ?_⟩
  · rw [nOpen_append, nClose_append, hdo, hdc, ho, hc]
    simpa using hstate
  · intro c hcmem
    by_contra hcc
    have : 0 < nClose ds := List.countP_pos_iff.mpr ⟨c, hcmem, by simpa using hcc⟩
    omega

theorem clean_delta_no_tags (ev : CodexEvent) (hclean : cleanEvent ev = true) :
    containsChars openTagChars (ev.delta.getD "").data = false ∧
    containsChars closeTagChars (ev.delta.getD "").data = false := by
  unfold cleanEvent at hclean
  rcases h : ev.delta with _ | d
  · rw [h] at hclean
    constructor <;> decide
  · rw [h] at hclean
    simp only [Bool.and_eq_true, Bool.not_eq_true'] at hclean
    simpa [h] using hclean

theorem fillCompat_fields (orig : JObject) (p : ConvertCliToOpenAIParams) :
    (fillCompat orig p).ThinkOpen = p.ThinkOpen ∧
    (fillCompat orig p).ThinkClosed = p.ThinkClosed := by
  unfold fillCompat
  split <;> exact ⟨rfl, rfl⟩

theorem fillCompat_rc (orig : JObject) (p : ConvertCliToOpenAIParams)
    (horig : resolveCodexReasoningCompat orig = "think-tags")
    (hrc : p.ReasoningCompat = "" ∨ p.ReasoningCompat = "think-tags") :
    (fillCompat orig p).ReasoningCompat = "think-tags" := by
  unfold fillCompat
  rcases hrc with h | h
  · rw [if_pos h]
    exact horig
  · rw [if_neg (by rw [h]; decide)]
    exact h

theorem step_think_inv (orig : JObject) (rev : String → Option String)
    (p : ConvertCliToOpenAIParams) (ev : CodexEvent)
    (horig : resolveCodexReasoningCompat orig = "think-tags")
    (hclean : cleanEvent ev = true)
    (cs : List Chunk) (hinv : ThinkInv p cs) :
    ThinkInv (ConvertCodexResponseToOpenAI orig rev p ev).1
      (cs ++ (ConvertCodexResponseToOpenAI orig rev p ev).2) := by
  have hrc := hinv.1
  unfold ConvertCodexResponseToOpenAI
  by_cases hcr : ev.type = "response.created"
  · rw [if_pos hcr]
    exact ThinkInv_extend p _ cs [] hrc rfl rfl hinv rfl rfl
  · rw [if_neg hcr]
    have hfrc : (fillCompat orig p).ReasoningCompat = "think-tags" :=
      fillCompat_rc orig p horig hrc
    obtain ⟨hfo, hfc⟩ := fillCompat_fields orig p
    set q := fillCompat orig p with hq
    obtain ⟨hdo, hdc⟩ := clean_delta_no_tags ev hclean
    by_cases h1 : ev.type = "response.reasoning_summary_part.added"
    · simp only [convertStep]
      rw [if_pos h1, if_pos (Or.inl hfrc)]
      split
      · exact ThinkInv_extend p _ cs [] (Or.inr hfrc) hfo hfc hinv rfl rfl
      · exact ThinkInv_extend p _ cs [] (Or.inr hfrc) hfo hfc hinv rfl rfl
    · by_cases h2 : ev.type = "response.reasoning_summary_text.delta" ∨
        ev.type = "response.reasoning_text.delta"
      · simp only [convertStep]
        rw [if_neg h1, if_pos h2, hfrc]
        rw [if_neg (by decide : ¬("think-tags" : String) = "o3"),
            if_neg (by decide : ¬(("think-tags" : String) = "legacy" ∨
              ("think-tags" : String) = "current"))]
        by_cases hop : q.ThinkOpen = true
        · -- no opening chunk: the think block is already open
          have hcond : ¬ (¬ q.ThinkOpen = true ∧ ¬ q.ThinkClosed = true) := by
            intro hh
            exact hh.1 hop
          rw [if_neg hcond]
          split
          · refine ThinkInv_extend p _ cs _ (Or.inr hfrc) hfo hfc hinv ?_ ?_ <;>
              simp [nOpen, nClose, chunkHasTag_makeContent, hdo, hdc] <;> (try decide)
          · refine ThinkInv_extend p _ cs _ (Or.inr hfrc) hfo hfc hinv ?_ ?_ <;>
              simp [nOpen, nClose, chunkHasTag_makeContent, hdo, hdc] <;> (try decide)
        · by_cases hcl : q.ThinkClosed = true
          · -- block already closed: no reopening
            have hcond : ¬ (¬ q.ThinkOpen = true ∧ ¬ q.ThinkClosed = true) := by
              intro hh
              exact hh.2 hcl
            rw [if_neg hcond]
            split
            · refine ThinkInv_extend p _ cs _ (Or.inr hfrc) hfo hfc hinv ?_ ?_ <;>
                simp [nOpen, nClose, chunkHasTag_makeContent, hdo, hdc] <;> (try decide)
            · refine ThinkInv_extend p _ cs _ (Or.inr hfrc) hfo hfc hinv ?_ ?_ <;>
                simp [nOpen, nClose, chunkHasTag_makeContent, hdo, hdc] <;> (try decide)
          · -- fresh block: the opening chunk is emitted
            have hcond : (¬ q.ThinkOpen = true ∧ ¬ q.ThinkClosed = true) := ⟨hop, hcl⟩
            rw [if_pos hcond]
            have hpo : p.ThinkOpen = false := by
              rw [← hfo]
              exact Bool.not_eq_true _ ▸ (by simpa using hop)
            have hpc : p.ThinkClosed = false := by
              rw [← hfc]
              exact Bool.not_eq_true _ ▸ (by simpa using hcl)
            obtain ⟨_, hstate, hord⟩ := hinv
            have hcnt : nOpen cs = 0 ∧ nClose cs = 0 := by
              rcases hstate with ⟨_, _, h₁, h₂⟩ | ⟨h₁, _, _, _⟩ | ⟨_, h₁, _, _⟩
              · exact ⟨‹_›, ‹_›⟩
              · rw [hpo] at h₁
                exact absurd h₁ (by decide)
              · rw [hpc] at h₁
                exact absurd h₁ (by decide)
            split
            · refine ⟨Or.inr rfl, ?_, ?_⟩
              · refine Or.inr (Or.inl ⟨rfl, ?_, ?_, ?_⟩)
                · simpa using hfc.trans hpc
                · rw [nOpen_append, hcnt.1]
                  simp only [nOpen, List.countP_append, List.countP_cons, List.countP_nil,
                    chunkHasTag_makeContent, hdo]
                  simp [openTagChars, closeTagChars, containsChars, isPrefixChars]
                · rw [nClose_append, hcnt.2]
                  simp only [nClose, List.countP_append, List.countP_cons, List.countP_nil,
                    chunkHasTag_makeContent, hdc]
                  simp [openTagChars, closeTagChars, containsChars, isPrefixChars]
              · refine openBeforeClose_append_no_close _ _ hord ?_
                intro c hcmem
                simp only [List.append_assoc, List.cons_append, List.nil_append,
                  List.mem_cons, List.mem_singleton] at hcmem
                rcases hcmem with rfl | rfl | rfl | h
                · rw [chunkHasTag_makeContent]
                  simp [openTagChars, closeTagChars, containsChars, isPrefixChars]
                · rw [chunkHasTag_makeContent]
                  simp [openTagChars, closeTagChars, containsChars, isPrefixChars]
                · rw [chunkHasTag_makeContent, hdc]
                · exact absurd h (by simp)
            · refine ⟨Or.inr rfl, ?_, ?_⟩
              · refine Or.inr (Or.inl ⟨rfl, ?_, ?_, ?_⟩)
                · simpa using hfc.trans hpc
                · rw [nOpen_append, hcnt.1]
                  simp only [nOpen, List.countP_append, List.countP_cons, List.countP_nil,
                    chunkHasTag_makeContent, hdo]
                  simp [openTagChars, closeTagChars, containsChars, isPrefixChars]
                · rw [nClose_append, hcnt.2]
                  simp only [nClose, List.countP_append, List.countP_cons, List.countP_nil,
                    chunkHasTag_makeContent, hdc]
                  simp [openTagChars, closeTagChars, containsChars, isPrefixChars]
              · refine openBeforeClose_append_no_close _ _ hord ?_
                intro c hcmem
                simp only [List.cons_append, List.nil_append, List.mem_cons,
                  List.mem_singleton] at hcmem
                rcases hcmem with rfl | rfl | h
                · rw [chunkHasTag_makeContent]
                  simp [openTagChars, closeTagChars, containsChars, isPrefixChars]
                · rw [chunkHasTag_makeContent, hdc]
                · exact absurd h (by simp)
      · by_cases h3 : ev.type = "response.reasoning_summary_text.done"
        · simp only [convertStep]
          rw [if_neg h1, if_neg h2, if_pos h3]
          exact ThinkInv_extend p _ cs [] (Or.inr hfrc) hfo hfc hinv rfl rfl
        · by_cases h4 : ev.type = "response.output_text.delta"
          · simp only [convertStep]
            rw [if_neg h1, if_neg h2, if_neg h3, if_pos h4]
            rcases hdel : ev.delta with _ | d
            · exact ThinkInv_extend p _ cs [] (Or.inr hfrc) hfo hfc hinv rfl rfl
            · rw [hdel] at hdo hdc
              simp only [Option.getD_some] at hdo hdc
              refine ThinkInv_extend p _ cs _ (Or.inr hfrc) hfo hfc hinv ?_ ?_ <;>
                simp [nOpen, nClose, chunkHasTag_makeContent, hdo, hdc]
          · by_cases h5 : ev.type = "response.completed"
            · simp only [convertStep]
              rw [if_neg h1, if_neg h2, if_neg h3, if_neg h4, if_pos h5, hfrc]
              by_cases hcond : ("think-tags" : String) = "think-tags" ∧
                  q.ThinkOpen = true ∧ ¬ q.ThinkClosed = true
              · rw [if_pos hcond]
                obtain ⟨_, hstate, hord⟩ := hinv
                have hpo : p.ThinkOpen = true := by rw [← hfo]; exact hcond.2.1
                have hpc : p.ThinkClosed = false := by
                  rw [← hfc]
                  simpa using hcond.2.2
                have hcnt : nOpen cs = 1 ∧ nClose cs = 0 := by
                  rcases hstate with ⟨h₁, _, _, _⟩ | ⟨_, _, h₁, h₂⟩ | ⟨h₁, _, _, _⟩
                  · rw [hpo] at h₁
                    exact absurd h₁ (by decide)
                  · exact ⟨‹_›, ‹_›⟩
                  · rw [hpo] at h₁
                    exact absurd h₁ (by decide)
                refine ⟨Or.inr rfl, ?_, ?_⟩
                · refine Or.inr (Or.inr ⟨rfl, rfl, ?_, ?_⟩)
                  · rw [nOpen_append, hcnt.1]
                    simp [nOpen, List.countP_cons, List.countP_nil, makeContentChunk,
                      chunkHasTag, mkChunkTemplate, openTagChars, closeTagChars,
                      containsChars, isPrefixChars]
                  · rw [nClose_append, hcnt.2]
                    simp [nClose, List.countP_cons, List.countP_nil, makeContentChunk,
                      chunkHasTag, mkChunkTemplate, openTagChars, closeTagChars,
                      containsChars, isPrefixChars]
                · refine openBeforeClose_append_close _ _ _ hord hcnt.1 ?_
                  simp [chunkHasTag, mkChunkTemplate]
              · rw [if_neg hcond]
                refine ThinkInv_extend p _ cs _ (Or.inr hfrc) hfo hfc hinv ?_ ?_ <;>
                  simp [nOpen, nClose, chunkHasTag, mkChunkTemplate]
            · by_cases h6 : ev.type = "response.output_item.done"
              · simp only [convertStep]
                rw [if_neg h1, if_neg h2, if_neg h3, if_neg h4, if_neg h5, if_pos h6]
                rcases hit : ev.item with _ | it
                · refine ThinkInv_extend p _ cs _ (Or.inr hfrc) hfo hfc hinv ?_ ?_ <;>
                    simp [nOpen, nClose, chunkHasTag, mkChunkTemplate]
                · dsimp only
                  by_cases hfct : it.type = "function_call"
                  · rw [if_neg (by simpa using hfct)]
                    refine ThinkInv_extend p _ cs _ (Or.inr hfrc) hfo hfc hinv ?_ ?_ <;>
                      simp [nOpen, nClose, chunkHasTag, mkChunkTemplate]
                  · rw [if_pos (by simpa using hfct)]
                    exact ThinkInv_extend p _ cs [] (Or.inr hfrc) hfo hfc hinv rfl rfl
              · simp only [convertStep]
                rw [if_neg h1, if_neg h2, if_neg h3, if_neg h4, if_neg h5, if_neg h6]
                exact ThinkInv_extend p _ cs [] (Or.inr hfrc) hfo hfc hinv rfl rfl

theorem ThinkInv_init (mn : String) : ThinkInv (initConvertParams mn) [] := by
  refine ⟨Or.inl rfl, Or.inl ⟨rfl, rfl, rfl, rfl⟩, ?_⟩
  intro j c hj _
  simp at hj

theorem ThinkInv_not_both {p : ConvertCliToOpenAIParams} {cs : List Chunk}
    (hinv : ThinkInv p cs) : ¬ (p.ThinkOpen = true ∧ p.ThinkClosed = true) := by
  rintro ⟨ho, hc⟩
  rcases hinv.2.1 with ⟨h₁, h₂, _⟩ | ⟨h₁, h₂, _⟩ | ⟨h₁, h₂, _⟩ <;> simp_all

theorem runFrom_think_inv (orig : JObject) (rev : String → Option String)
    (horig : resolveCodexReasoningCompat orig = "think-tags")
    (evs : List CodexEvent) :
    ∀ (p : ConvertCliToOpenAIParams) (cs : List Chunk),
      (∀ ev ∈ evs, cleanEvent ev = true) → ThinkInv p cs →
      ThinkInv (runCodexStreamFrom orig rev (p, cs) evs).1
        (runCodexStreamFrom orig rev (p, cs) evs).2 := by
  induction evs with
  | nil =>
    intro p cs _ hinv
    exact hinv
  | cons ev rest ih =>
    intro p cs hclean hinv
    rw [runCodexStreamFrom]
    exact ih _ _ (fun e he => hclean e (by simp [he]))
      (step_think_inv orig rev p ev horig (hclean ev (by simp)) cs hinv)

theorem runFrom_append (orig : JObject) (rev : String → Option String)
    (evs₁ evs₂ : List CodexEvent) :
    ∀ acc, runCodexStreamFrom orig rev acc (evs₁ ++ evs₂) =
      runCodexStreamFrom orig rev (runCodexStreamFrom orig rev acc evs₁) evs₂ := by
  induction evs₁ with
  | nil => intro acc; rfl
  | cons e es ih =>
    intro acc
    rw [List.cons_append, runCodexStreamFrom, runCodexStreamFrom]
    exact ih _

theorem step_completed_not_open (orig : JObject) (rev : String → Option String)
    (p : ConvertCliToOpenAIParams) (ev : CodexEvent)
    (horig : resolveCodexReasoningCompat orig = "think-tags")
    (hrc : p.ReasoningCompat = "" ∨ p.ReasoningCompat = "think-tags")
    (hnb : ¬ (p.ThinkOpen = true ∧ p.ThinkClosed = true))
    (h : ev.type = "response.completed") :
    (ConvertCodexResponseToOpenAI orig rev p ev).1.ThinkOpen = false := by
  have hcr : ¬ ev.type = "response.created" := by rw [h]; decide
  have h1 : ¬ ev.type = "response.reasoning_summary_part.added" := by rw [h]; decide
  have h2 : ¬ (ev.type = "response.reasoning_summary_text.delta" ∨
      ev.type = "response.reasoning_text.delta") := by rw [h]; decide
  have h3 : ¬ ev.type = "response.reasoning_summary_text.done" := by rw [h]; decide
  have h4 : ¬ ev.type = "response.output_text.delta" := by rw [h]; decide
  have hfrc := fillCompat_rc orig p horig hrc
  obtain ⟨hfo, hfc⟩ := fillCompat_fields orig p
  unfold ConvertCodexResponseToOpenAI
  rw [if_neg hcr]
  simp only [convertStep]
  rw [if_neg h1, if_neg h2, if_neg h3, if_neg h4, if_pos h, hfrc]
  by_cases hcond : ("think-tags" : String) = "think-tags" ∧
      (fillCompat orig p).ThinkOpen = true ∧ ¬ (fillCompat orig p).ThinkClosed = true
  · rw [if_pos hcond]
  · rw [if_neg hcond]
    by_cases ho : (fillCompat orig p).ThinkOpen = true
    · exfalso
      have hcl : (fillCompat orig p).ThinkClosed = true := by
        by_contra hc
        exact hcond ⟨rfl, ho, hc⟩
      exact hnb ⟨by rw [← hfo]; exact ho, by rw [← hfc]; exact hcl⟩
    · simpa using ho

/-- C3 (amended: the vendor delta texts must not themselves contain the
literal tags): for every event sequence ending in `response.completed`,
processed from a fresh state under think-tags mode, the number of emitted
chunks whose content contains `"<think>"` equals the number containing
`"</think>"`, both counts are at most one, and every close-tag chunk is
preceded by an open-tag chunk. -/
theorem think_tag_balance_spec (orig : JObject) (rev : String → Option String)
    (mn : String) (pre : List CodexEvent) (lastEv : CodexEvent)
    (horig : resolveCodexReasoningCompat orig = "think-tags")
    (hclean : ∀ ev ∈ pre ++ [lastEv], cleanEvent ev = true)
    (hlast : lastEv.type = "response.completed") :
    nOpen (runCodexStream orig rev mn (pre ++ [lastEv])).2 =
      nClose (runCodexStream orig rev mn (pre ++ [lastEv])).2 ∧
    nOpen (runCodexStream orig rev mn (pre ++ [lastEv])).2 ≤ 1 ∧
    openBeforeClose (runCodexStream orig rev mn (pre ++ [lastEv])).2 := by
  have hinvPre : ThinkInv (runCodexStreamFrom orig rev (initConvertParams mn, []) pre).1
      (runCodexStreamFrom orig rev (initConvertParams mn, []) pre).2 :=
    runFrom_think_inv orig rev horig pre (initConvertParams mn) []
      (fun e he => hclean e (by simp [he])) (ThinkInv_init mn)
  have hinvFull : ThinkInv (runCodexStream orig rev mn (pre ++ [lastEv])).1
      (runCodexStream orig rev mn (pre ++ [lastEv])).2 := by
    unfold runCodexStream
    exact runFrom_think_inv orig rev horig (pre ++ [lastEv]) (initConvertParams mn) []
      hclean (ThinkInv_init mn)
  have hfull : runCodexStream orig rev mn (pre ++ [lastEv]) =
      ((ConvertCodexResponseToOpenAI orig rev
          (runCodexStreamFrom orig rev (initConvertParams mn, []) pre).1 lastEv).1,
        (runCodexStreamFrom orig rev (initConvertParams mn, []) pre).2 ++
          (ConvertCodexResponseToOpenAI orig rev
            (runCodexStreamFrom orig rev (initConvertParams mn, []) pre).1 lastEv).2) := by
    unfold runCodexStream
    rw [runFrom_append]
    rfl
  have hopenF : (runCodexStream orig rev mn (pre ++ [lastEv])).1.ThinkOpen = false := by
    rw [hfull]
    exact step_completed_not_open orig rev _ lastEv horig hinvPre.1
      (ThinkInv_not_both hinvPre) hlast
  obtain ⟨_, hstate, hord⟩ := hinvFull
  refine ⟨?_, ?_, hord⟩ <;>
    rcases hstate with ⟨_, _, h₁, h₂⟩ | ⟨ho, _, _, _⟩ | ⟨_, _, h₁, h₂⟩ <;> simp_all

/-- Witness for C3 at a concrete clean sequence. -/
theorem think_tag_balance_spec_witness :
    nOpen (runCodexStream [] (fun _ => none) "m"
        ([{ type := "response.reasoning_text.delta", delta := some "th" }] ++
          [{ type := "response.completed" }])).2 =
      nClose (runCodexStream [] (fun _ => none) "m"
        ([{ type := "response.reasoning_text.delta", delta := some "th" }] ++
          [{ type := "response.completed" }])).2 ∧
    nOpen (runCodexStream [] (fun _ => none) "m"
        ([{ type := "response.reasoning_text.delta", delta := some "th" }] ++
          [{ type := "response.completed" }])).2 ≤ 1 ∧
    openBeforeClose (runCodexStream [] (fun _ => none) "m"
        ([{ type := "response.reasoning_text.delta", delta := some "th" }] ++
          [{ type := "response.completed" }])).2 :=
  think_tag_balance_spec [] (fun _ => none) "m"
    [{ type := "response.reasoning_text.delta", delta := some "th" }]
    { type := "response.completed" } (by decide) (by decide) rfl

/-- C3 counterexample: with a vendor delta whose text is the literal
`"</think>"`, the sequence ends in `response.completed` under think-tags
mode (the default for an unannotated request) yet one emitted chunk contains
`"<think>"` while two contain `"</think>"`. -/
theorem think_tag_balance_counterexample :
    resolveCodexReasoningCompat [] = "think-tags" ∧
    (([{ type := "response.reasoning_text.delta", delta := some "</think>" },
       { type := "response.completed" }] : List CodexEvent).getLast?.map (·.type) =
      some "response.completed") ∧
    nOpen (runCodexStream [] (fun _ => none) "m"
        [{ type := "response.reasoning_text.delta", delta := some "</think>" },
         { type := "response.completed" }]).2 = 1 ∧
    nClose (runCodexStream [] (fun _ => none) "m"
        [{ type := "response.reasoning_text.delta", delta := some "</think>" },
         { type := "response.completed" }]).2 = 2 ∧
    ¬ (nOpen (runCodexStream [] (fun _ => none) "m"
        [{ type := "response.reasoning_text.delta", delta := some "</think>" },
         { type := "response.completed" }]).2 =
       nClose (runCodexStream [] (fun _ => none) "m"
        [{ type := "response.reasoning_text.delta", delta := some "</think>" },
         { type := "response.completed" }]).2) := by
  refine ⟨by decide, by decide, by decide, by decide, by decide⟩

/-! ## C8: the compatibility-mode patch -/

theorem getKey_setKey_ne (o : JObject) (k k' : String) (v : JValue) (h : ¬ k' = k) :
    getKey (setKey o k v) k' = getKey o k' := by
  have h' : ¬ k = k' := fun hh => h hh.symm
  induction o with
  | nil => simp [setKey, getKey, h']
  | cons kv rest ih =>
    by_cases hk : kv.1 = k
    · simp only [setKey, hk, if_true, eq_self_iff_true, getKey]
      rw [if_neg h', if_neg h']
    · simp only [setKey, hk, if_false, getKey, ih]
  
theorem getKey_deleteKey_ne (o : JObject) (k k' : String) (h : ¬ k' = k) :
    getKey (deleteKey o k) k' = getKey o k' := by
  have h' : ¬ k = k' := fun hh => h hh.symm
  induction o with
  | nil => simp [deleteKey]
  | cons kv rest ih =>
    by_cases hk : kv.1 = k
    · simp only [deleteKey, hk, if_true, eq_self_iff_true, getKey]
      rw [if_neg h']
    · simp only [deleteKey, hk, if_false, getKey, ih]

theorem getKey_none_of_not_mem (o : JObject) (k : String)
    (h : k ∉ o.map Prod.fst) : getKey o k = none := by
  induction o with
  | nil => rfl
  | cons kv rest ih =>
    simp only [List.map_cons, List.mem_cons] at h
    push_neg at h
    simp only [getKey]
    rw [if_neg (fun hh => h.1 hh.symm)]
    exact ih h.2

theorem getKey_deleteKey_self (o : JObject) (k : String)
    (h : (o.map Prod.fst).Nodup) : getKey (deleteKey o k) k = none := by
  induction o with
  | nil => rfl
  | cons kv rest ih =>
    simp only [List.map_cons, List.nodup_cons] at h
    by_cases hk : kv.1 = k
    · simp only [deleteKey, hk, if_true, eq_self_iff_true]
      exact getKey_none_of_not_mem rest k (hk ▸ h.1)
    · simp only [deleteKey, hk, if_false, getKey]
      exact ih h.2

theorem setKey_map_fst (o : JObject) (k : String) (v : JValue) :
    (setKey o k v).map Prod.fst =
      if k ∈ o.map Prod.fst then o.map Prod.fst else o.map Prod.fst ++ [k] := by
  induction o with
  | nil => simp [setKey]
  | cons kv rest ih =>
    by_cases hk : kv.1 = k
    · simp [setKey, hk]
    · simp only [setKey, hk, if_false, List.map_cons, ih]
      have hne : ¬ k = kv.1 := fun hh => hk hh.symm
      by_cases hmem : k ∈ rest.map Prod.fst
      · simp [hmem, hne]
      · simp [hmem, hne]

theorem setKey_nodup (o : JObject) (k : String) (v : JValue)
    (h : (o.map Prod.fst).Nodup) : ((setKey o k v).map Prod.fst).Nodup := by
  rw [setKey_map_fst]
  by_cases hmem : k ∈ o.map Prod.fst
  · simpa [hmem] using h
  · simp only [hmem, if_false]
    refine List.Nodup.append h (List.nodup_singleton _) ?_
    intro a ha hb
    simp only [List.mem_singleton] at hb
    exact hmem (hb ▸ ha)

theorem setKey_of_getKey_eq (o : JObject) (k : String) (v : JValue)
    (h : getKey o k = some v) : setKey o k v = o := by
  induction o with
  | nil => simp [getKey] at h
  | cons kv rest ih =>
    by_cases hk : kv.1 = k
    · simp only [getKey, hk, if_true, eq_self_iff_true, Option.some_inj] at h
      simp only [setKey, hk, if_true, eq_self_iff_true]
      rw [← hk, ← h]
    · simp only [getKey, hk, if_false] at h
      simp [setKey, hk, ih h]

/-- The per-element effect of the compatibility loop: rewrite the `role` of
an object whose role folds to `system`, leave every other element alone. -/
def rewriteIfSystem (v : JValue) : JValue :=
  match v with
  | JValue.obj fields =>
    if isSystemRoleItem (JValue.obj fields) then
      JValue.obj (setKey fields "role" (JValue.str "user"))
    else JValue.obj fields
  | v => v

theorem isSystemRoleItem_obj {v : JValue} (h : isSystemRoleItem v = true) :
    ∃ fields, v = JValue.obj fields := by
  cases v with
  | obj fields => exact ⟨fields, rfl⟩
  | null => exact absurd h (by decide)
  | bool b =>
    exact absurd h
      (by rw [show isSystemRoleItem (JValue.bool b) = strEqFold "" "system" from rfl]; decide)
  | num n =>
    exact absurd h
      (by rw [show isSystemRoleItem (JValue.num n) = strEqFold "" "system" from rfl]; decide)
  | str s =>
    exact absurd h
      (by rw [show isSystemRoleItem (JValue.str s) = strEqFold "" "system" from rfl]; decide)
  | arr xs =>
    exact absurd h
      (by rw [show isSystemRoleItem (JValue.arr xs) = strEqFold "" "system" from rfl]; decide)

theorem rewriteIfSystem_of_not (v : JValue) (h : isSystemRoleItem v = false) :
    rewriteIfSystem v = v := by
  cases v with
  | obj fields => simp [rewriteIfSystem, h]
  | null => rfl
  | bool b => rfl
  | num n => rfl
  | str s => rfl
  | arr xs => rfl

theorem setKey_setKey (o : JObject) (k : String) (v v' : JValue) :
    setKey (setKey o k v) k v' = setKey o k v' := by
  induction o with
  | nil => simp [setKey]
  | cons kv rest ih =>
    by_cases hk : kv.1 = k
    · simp [setKey, hk]
    · simp [setKey, hk, ih]

theorem set_append_cons {α : Type _} (A : List α) (b : α) (B : List α) (v : α)
    (n : Nat) (hn : n = A.length) : (A ++ b :: B).set n v = A ++ v :: B := by
  subst hn
  induction A with
  | nil => rfl
  | cons a A ih => simpa [List.set] using ih

theorem mapTake_length (items : List JValue) (k : Nat) (hk : k ≤ items.length)
    (f : JValue → JValue) : ((items.take k).map f).length = k := by
  simp [List.length_take]
  omega

theorem mapTake_append_drop_getElem (items : List JValue) (k : Nat)
    (hk : k < items.length) (f : JValue → JValue) :
    ((items.take k).map f ++ items.drop k)[k]? = some items[k] := by
  have hl := mapTake_length items k (le_of_lt hk) f
  rw [List.getElem?_append_right (le_of_eq hl), hl, Nat.sub_self,
    List.drop_eq_getElem_cons hk]
  simp

theorem mapTake_set (items : List JValue) (k : Nat) (hk : k < items.length)
    (f : JValue → JValue) (v : JValue) :
    ((items.take k).map f ++ items.drop k).set k v =
      (items.take k).map f ++ v :: items.drop (k + 1) := by
  rw [List.drop_eq_getElem_cons hk]
  exact set_append_cons _ _ _ _ _ (mapTake_length items k (le_of_lt hk) f).symm

theorem mapTake_succ (items : List JValue) (k : Nat) (hk : k < items.length)
    (f : JValue → JValue) :
    (items.take (k + 1)).map f ++ items.drop (k + 1) =
      (items.take k).map f ++ f items[k] :: items.drop (k + 1) := by
  rw [List.take_succ, List.getElem?_eq_getElem hk, List.map_append]
  simp

theorem compat_fold_spec (out0 : JObject) (items : List JValue)
    (hin : getKey out0 "input" = some (JValue.arr items)) :
    ∀ k, k ≤ items.length →
      (List.range k).foldl (compatLoopStep items) out0 =
        setKey out0 "input"
          (JValue.arr ((items.take k).map rewriteIfSystem ++ items.drop k)) := by
  intro k
  induction k with
  | zero =>
    intro _
    simp only [List.range_zero, List.foldl_nil, List.take_zero, List.map_nil,
      List.nil_append, List.drop_zero]
    exact (setKey_of_getKey_eq _ _ _ hin).symm
  | succ k ih =>
    intro hk
    have hk' : k < items.length := by omega
    rw [List.range_succ, List.foldl_append, List.foldl_cons, List.foldl_nil, ih (by omega)]
    unfold compatLoopStep
    rw [List.getElem?_eq_getElem hk']
    dsimp only
    by_cases hsys : isSystemRoleItem items[k] = true
    · rw [if_pos hsys]
      obtain ⟨fields, hf⟩ := isSystemRoleItem_obj hsys
      have hsys' : isSystemRoleItem (JValue.obj fields) = true := hf ▸ hsys
      unfold setInputRole
      rw [getKey_setKey_self]
      dsimp only
      rw [mapTake_append_drop_getElem items k hk' _, hf]
      dsimp only
      rw [mapTake_set items k hk' _ _, setKey_setKey, mapTake_succ items k hk' _, hf]
      rw [show rewriteIfSystem (JValue.obj fields) =
        JValue.obj (setKey fields "role" (JValue.str "user")) from by
          simp [rewriteIfSystem, hsys']]
    · rw [if_neg hsys]
      rw [mapTake_succ items k hk' _,
        rewriteIfSystem_of_not _ (by simpa using hsys), ← List.drop_eq_getElem_cons hk']

theorem getKey_setPath2_ne (o : JObject) (k1 k2 k' : String) (v : JValue)
    (h : ¬ k' = k1) : getKey (setPath2 o k1 k2 v) k' = getKey o k' := by
  unfold setPath2
  split <;> rw [getKey_setKey_ne _ _ _ _ h]

theorem setPath2_nodup (o : JObject) (k1 k2 : String) (v : JValue)
    (h : (o.map Prod.fst).Nodup) : ((setPath2 o k1 k2 v).map Prod.fst).Nodup := by
  unfold setPath2
  split <;> exact setKey_nodup _ _ _ h

theorem stage_preserves (o : JObject) (c : Prop) [Decidable c] (k1 k2 : String)
    (v : JValue) (key : String) (hk : ¬ key = k1) :
    getKey (if c then setPath2 o k1 k2 v else o) key = getKey o key := by
  split
  · exact getKey_setPath2_ne _ _ _ _ _ hk
  · rfl

theorem stage_nodup (o : JObject) (c : Prop) [Decidable c] (k1 k2 : String)
    (v : JValue) (h : (o.map Prod.fst).Nodup) :
    ((if c then setPath2 o k1 k2 v else o).map Prod.fst).Nodup := by
  split
  · exact setPath2_nodup _ _ _ _ h
  · exact h

theorem wsIf_preserves (o : JObject) (c : Prop) [Decidable c] (key : String)
    (hk : ¬ key = "tools") :
    getKey (if c then applyWebSearchPatch o else o) key = getKey o key := by
  split
  · unfold applyWebSearchPatch
    split
    · rfl
    · exact getKey_setKey_ne _ _ _ _ hk
  · rfl

theorem applyCodexCompatibilityMode_instructions (payload : JObject)
    (h : (payload.map Prod.fst).Nodup) :
    getKey (applyCodexCompatibilityMode payload) "instructions" = none := by
  unfold applyCodexCompatibilityMode
  dsimp only
  have hdel : getKey (deleteKey payload "instructions") "instructions" = none :=
    getKey_deleteKey_self payload _ h
  split
  · next items heq =>
    rw [compat_fold_spec _ items heq items.length (le_refl _),
      getKey_setKey_ne _ _ _ _ (by decide)]
    exact hdel
  · exact hdel

theorem applyCodexCompatibilityMode_input (payload : JObject) (items : List JValue)
    (h : getKey (deleteKey payload "instructions") "input" = some (JValue.arr items)) :
    getKey (applyCodexCompatibilityMode payload) "input" =
      some (JValue.arr (items.map rewriteIfSystem)) := by
  unfold applyCodexCompatibilityMode
  dsimp only
  rw [h]
  dsimp only
  rw [compat_fold_spec _ items h items.length (le_refl _), getKey_setKey_self]
  congr 1
  simp

/-- C8: when `compatibilityMode` is set (and the payload's top-level keys
are distinct, as in any JSON document), `applyCodexCommandSettings` removes
the `instructions` field and rewrites the `input` array elementwise: an
element whose `role` equals `"system"` case-insensitively gets role
`"user"` with every other field (and the array order) preserved, and every
other element is unchanged. -/
theorem compatibility_mode_spec :
    ∀ (payload : JObject) (settings : CodexSettings),
      settings.CompatibilityMode = true →
      (payload.map Prod.fst).Nodup →
      (getKey (applyCodexCommandSettings payload settings) "instructions" = none ∧
       (∀ items, getKey payload "input" = some (JValue.arr items) →
         getKey (applyCodexCommandSettings payload settings) "input" =
           some (JValue.arr (items.map rewriteIfSystem)))) ∧
      (∀ v, isSystemRoleItem v = false → rewriteIfSystem v = v) ∧
      (∀ fields, isSystemRoleItem (JValue.obj fields) = true →
        rewriteIfSystem (JValue.obj fields) =
          JValue.obj (setKey fields "role" (JValue.str "user")) ∧
        getKey (setKey fields "role" (JValue.str "user")) "role" =
          some (JValue.str "user") ∧
        (∀ k, ¬ k = "role" →
          getKey (setKey fields "role" (JValue.str "user")) k = getKey fields k)) := by
  intro payload settings hcm hnd
  have hnd2 : (((if settings.ReasoningSummary ≠ "" then
      setPath2 (if settings.ReasoningEffort ≠ "" then
        setPath2 payload "reasoning" "effort" (JValue.str settings.ReasoningEffort)
        else payload) "reasoning" "summary" (JValue.str settings.ReasoningSummary)
      else (if settings.ReasoningEffort ≠ "" then
        setPath2 payload "reasoning" "effort" (JValue.str settings.ReasoningEffort)
        else payload)).map Prod.fst)).Nodup :=
    stage_nodup _ _ _ _ _ (stage_nodup _ _ _ _ _ hnd)
  refine ⟨⟨?_, ?_⟩, ?_, ?_⟩
  · unfold applyCodexCommandSettings
    simp only [hcm, if_true]
    rw [wsIf_preserves _ _ _ (by decide)]
    exact applyCodexCompatibilityMode_instructions _ hnd2
  · intro items hin
    unfold applyCodexCommandSettings
    simp only [hcm, if_true]
    rw [wsIf_preserves _ _ _ (by decide)]
    refine applyCodexCompatibilityMode_input _ items ?_
    rw [getKey_deleteKey_ne _ _ _ (by decide),
      stage_preserves _ _ _ _ _ _ (by decide), stage_preserves _ _ _ _ _ _ (by decide)]
    exact hin
  · exact fun v hv => rewriteIfSystem_of_not v hv
  · intro fields hf
    refine ⟨by simp [rewriteIfSystem, hf], getKey_setKey_self _ _ _, ?_⟩
    intro k hk
    exact getKey_setKey_ne _ _ _ _ hk

/-- Witness for C8 at a concrete payload with a system-role element. -/
theorem compatibility_mode_spec_witness :
    getKey
      (applyCodexCommandSettings
        [("instructions", JValue.str "be brief"),
         ("input", JValue.arr
           [JValue.obj [("role", JValue.str "System"), ("content", JValue.str "x")],
            JValue.obj [("role", JValue.str "user"), ("content", JValue.str "y")]])]
        { CompatibilityMode := true }) "instructions" = none ∧
    getKey
      (applyCodexCommandSettings
        [("instructions", JValue.str "be brief"),
         ("input", JValue.arr
           [JValue.obj [("role", JValue.str "System"), ("content", JValue.str "x")],
            JValue.obj [("role", JValue.str "user"), ("content", JValue.str "y")]])]
        { CompatibilityMode := true }) "input" =
      some (JValue.arr
        ([JValue.obj [("role", JValue.str "System"), ("content", JValue.str "x")],
          JValue.obj [("role", JValue.str "user"), ("content", JValue.str "y")]].map
          rewriteIfSystem)) := by
  have h := compatibility_mode_spec
    [("instructions", JValue.str "be brief"),
     ("input", JValue.arr
       [JValue.obj [("role", JValue.str "System"), ("content", JValue.str "x")],
        JValue.obj [("role", JValue.str "user"), ("content", JValue.str "y")]])]
    { CompatibilityMode := true } rfl (by simp)
  exact ⟨h.1.1, h.1.2 _ rfl⟩

/-! ## C1: streaming vs non-stream observable equivalence -/

/-- Flatten a reasoning value to its text. -/
def reasoningValText : ReasoningVal → String
  | ReasoningVal.str s => s
  | ReasoningVal.blocks ts => ts.foldl (· ++ ·) ""

/-- The tool calls carried by one chunk, as (id, name, arguments) triples. -/
def chunkToolTriples (c : Chunk) : List (String × String × String) :=
  (c.delta.tool_calls.getD []).map (fun t => (t.id, t.name, t.arguments))

/-- Modelled from the spec: the observables over which the spec declares the
two translation paths "observably equivalent" — message content, reasoning
formatting (summary and text), tool calls, finish reason and usage. -/
structure Observables where
  content : String
  reasoningSummary : String
  reasoningText : String
  toolCalls : List (String × String × String)
  finishReason : Option String
  usage : Option ChunkUsage
deriving DecidableEq

/-- Modelled from the spec: aggregating the emitted chunks of the streaming
path into its observables. -/
def streamObservables (cs : List Chunk) : Observables :=
  { content := cs.foldl (fun a c => a ++ c.delta.content.getD "") ""
  , reasoningSummary := cs.foldl (fun a c => a ++ c.delta.reasoning_summary.getD "") ""
  , reasoningText :=
      cs.foldl (fun a c => a ++ (c.delta.reasoning.map reasoningValText).getD "") ""
  , toolCalls := cs.foldl (fun a c => a ++ chunkToolTriples c) []
  , finishReason := (cs.filterMap (·.finish_reason)).getLast?
  , usage := (cs.filterMap (·.usage)).getLast? }

/-- Modelled from the spec: the observables of the non-stream result. -/
def nsObservables (r : NSResponse) : Observables :=
  { content := r.message.content.getD ""
  , reasoningSummary := r.message.reasoning_summary.getD ""
  , reasoningText := (r.message.reasoning.map reasoningValText).getD ""
  , toolCalls := (r.message.tool_calls.getD []).map (fun t => (t.id, t.name, t.arguments))
  , finishReason := r.finish_reason
  , usage := r.usage }

/-- The function-call item used by the C1 counterexample. -/
def c1FcItem : CodexItem :=
  { type := "function_call", call_id := some "c1", name := some "f", arguments := some "a" }

/-- The terminal event of the C1 counterexample: one completed response
whose output holds a single function call. -/
def c1CompletedEv : CodexEvent :=
  { type := "response.completed"
  , response := some
      { id := some "r1", model := some "m1", status := some "completed"
      , output := some [c1FcItem] } }

/-- The complete vendor event sequence of the C1 counterexample. -/
def c1Events : List CodexEvent :=
  [ { type := "response.created"
    , response := some { id := some "r1", created_at := some 100, model := some "m1" } }
  , { type := "response.output_item.done", item := some c1FcItem }
  , c1CompletedEv ]

/-- C1 counterexample: for the complete sequence holding one function call,
the streaming aggregate reports finish reason `"tool_calls"` while the
non-stream translation of the same terminal object reports `"stop"`, so the
two paths are not observably equivalent. -/
theorem stream_nonstream_equivalence_counterexample :
    (ConvertCodexResponseToOpenAINonStream [] (fun _ => none) 0 c1CompletedEv).map
        nsObservables ≠
      some (streamObservables (runCodexStream [] (fun _ => none) "m" c1Events).2) ∧
    (streamObservables (runCodexStream [] (fun _ => none) "m" c1Events).2).finishReason =
      some "tool_calls" ∧
    (ConvertCodexResponseToOpenAINonStream [] (fun _ => none) 0 c1CompletedEv).map
        (·.finish_reason) = some (some "stop") ∧
    (streamObservables (runCodexStream [] (fun _ => none) "m" c1Events).2).toolCalls =
      [("c1", "f", "a")] ∧
    (ConvertCodexResponseToOpenAINonStream [] (fun _ => none) 0 c1CompletedEv).map
        (fun r => (nsObservables r).toolCalls) = some [("c1", "f", "a")] := by
  exact ⟨by decide, by decide, by decide, by decide, by decide⟩

theorem normalize_ne_empty (s : String) : ¬ normalizeCodexReasoningCompat s = "" := by
  unfold normalizeCodexReasoningCompat normFromKey
  split
  · next h =>
    rcases h with h | h | h | h <;> rw [h] <;> decide
  · decide

theorem resolve_ne_empty (orig : JObject) : ¬ resolveCodexReasoningCompat orig = "" := by
  unfold resolveCodexReasoningCompat
  split
  · exact normalize_ne_empty _
  · split
    · exact normalize_ne_empty _
    · exact normalize_ne_empty _

theorem fillCompat_idem (orig : JObject) (p : ConvertCliToOpenAIParams) :
    fillCompat orig (fillCompat orig p) = fillCompat orig p := by
  unfold fillCompat
  by_cases h : p.ReasoningCompat = ""
  · rw [if_pos h]
    rw [if_neg (resolve_ne_empty orig)]
  · rw [if_neg h, if_neg h]

theorem mkChunkTemplate_fillCompat (orig : JObject) (p : ConvertCliToOpenAIParams)
    (ev : CodexEvent) :
    mkChunkTemplate (fillCompat orig p) ev = mkChunkTemplate p ev := by
  unfold fillCompat
  split <;> rfl

theorem fillCompat_state (orig : JObject) (p : ConvertCliToOpenAIParams) :
    (fillCompat orig p).FunctionCallIndex = p.FunctionCallIndex ∧
    (fillCompat orig p).ThinkOpen = p.ThinkOpen := by
  unfold fillCompat
  split <;> exact ⟨rfl, rfl⟩

theorem step_textDelta (orig : JObject) (rev : String → Option String)
    (p : ConvertCliToOpenAIParams) (d : String) :
    ConvertCodexResponseToOpenAI orig rev p
        { type := "response.output_text.delta", delta := some d } =
      (fillCompat orig p,
       [makeContentChunk
         (mkChunkTemplate p { type := "response.output_text.delta", delta := some d }) d]) := by
  unfold ConvertCodexResponseToOpenAI
  rw [if_neg (by simp)]
  unfold convertStep
  rw [if_neg (by simp), if_neg (by simp), if_neg (by simp), if_pos (by simp)]
  dsimp only
  rw [mkChunkTemplate_fillCompat]

theorem runFrom_textDeltas (orig : JObject) (rev : String → Option String)
    (deltas : List String) :
    ∀ (p : ConvertCliToOpenAIParams) (cs : List Chunk),
      runCodexStreamFrom orig rev (p, cs)
          (deltas.map (fun d =>
            ({ type := "response.output_text.delta", delta := some d } : CodexEvent))) =
        ((if deltas = [] then p else fillCompat orig p),
         cs ++ deltas.map (fun d =>
           makeContentChunk
             (mkChunkTemplate p
               { type := "response.output_text.delta", delta := some d }) d)) := by
  induction deltas with
  | nil =>
    intro p cs
    simp [runCodexStreamFrom]
  | cons d ds ih =>
    intro p cs
    rw [List.map_cons, runCodexStreamFrom, step_textDelta, ih]
    rw [if_neg (by simp : ¬ (d :: ds) = []), fillCompat_idem]
    by_cases hds : ds = []
    · subst hds
      simp [mkChunkTemplate_fillCompat]
    · rw [if_neg hds]
      refine congrArg _ ?_
      rw [List.append_assoc]
      refine congrArg _ ?_
      simp [mkChunkTemplate_fillCompat]

theorem step_completed_simple (orig : JObject) (rev : String → Option String)
    (p : ConvertCliToOpenAIParams) (ev : CodexEvent) (hty : ev.type = "response.completed")
    (hfci : p.FunctionCallIndex = -1) (hopen : p.ThinkOpen = false) :
    ConvertCodexResponseToOpenAI orig rev p ev =
      (fillCompat orig p,
       [{ mkChunkTemplate p ev with
            finish_reason := some "stop", native_finish_reason := some "stop" }]) := by
  have hcr : ¬ ev.type = "response.created" := by rw [hty]; decide
  have h1 : ¬ ev.type = "response.reasoning_summary_part.added" := by rw [hty]; decide
  have h2 : ¬ (ev.type = "response.reasoning_summary_text.delta" ∨
      ev.type = "response.reasoning_text.delta") := by rw [hty]; decide
  have h3 : ¬ ev.type = "response.reasoning_summary_text.done" := by rw [hty]; decide
  have h4 : ¬ ev.type = "response.output_text.delta" := by rw [hty]; decide
  unfold ConvertCodexResponseToOpenAI
  rw [if_neg hcr]
  unfold convertStep
  rw [if_neg h1, if_neg h2, if_neg h3, if_neg h4, if_pos hty]
  have hfci' : (fillCompat orig p).FunctionCallIndex = -1 := by
    rw [(fillCompat_state orig p).1]
    exact hfci
  have hopen' : (fillCompat orig p).ThinkOpen = false := by
    rw [(fillCompat_state orig p).2]
    exact hopen
  rw [if_neg (show ¬ ((fillCompat orig p).FunctionCallIndex ≠ -1) by simp [hfci'])]
  rw [if_neg (show ¬ ((fillCompat orig p).ReasoningCompat = "think-tags" ∧
      (fillCompat orig p).ThinkOpen = true ∧ ¬ (fillCompat orig p).ThinkClosed = true) by
    rintro ⟨-, ho2, -⟩
    rw [hopen'] at ho2
    exact absurd ho2 (by decide))]
  rw [mkChunkTemplate_fillCompat]

theorem applyCompat_empty (m : NSMessage) (compat : String) :
    applyCodexReasoningCompatToMessage m "" "" compat = m := by
  have hj : joinReasoningText "" "" = "" := by decide
  have ht : trimStr "" = "" := by decide
  unfold applyCodexReasoningCompatToMessage
  dsimp only
  split
  · rw [hj]
    simp
  · split
    · rw [ht]
      simp
    · rfl

theorem c1_fold_content (p : ConvertCliToOpenAIParams) (ds : List String) :
    ∀ acc : String,
      (ds.map (fun d => makeContentChunk
          (mkChunkTemplate p
            { type := "response.output_text.delta", delta := some d }) d)).foldl
          (fun a c => a ++ c.delta.content.getD "") acc
        = ds.foldl (· ++ ·) acc := by
  induction ds with
  | nil =>
    intro acc
    rfl
  | cons d t ih =>
    intro acc
    rw [List.map_cons, List.foldl_cons, List.foldl_cons]
    exact ih _

theorem c1_foldl_str_empty (g : Chunk → String) (cs : List Chunk)
    (h : ∀ c ∈ cs, g c = "") :
    ∀ acc : String, cs.foldl (fun a c => a ++ g c) acc = acc := by
  induction cs with
  | nil =>
    intro acc
    rfl
  | cons c t ih =>
    intro acc
    rw [List.foldl_cons, h c (List.mem_cons_self c t)]
    have h2 : acc ++ "" = acc := by simp
    rw [h2]
    exact ih (fun x hx => h x (List.mem_cons_of_mem c hx)) acc

theorem c1_foldl_list_empty (g : Chunk → List (String × String × String))
    (cs : List Chunk) (h : ∀ c ∈ cs, g c = []) :
    ∀ acc, cs.foldl (fun a c => a ++ g c) acc = acc := by
  induction cs with
  | nil =>
    intro acc
    rfl
  | cons c t ih =>
    intro acc
    rw [List.foldl_cons, h c (List.mem_cons_self c t), List.append_nil]
    exact ih (fun x hx => h x (List.mem_cons_of_mem c hx)) acc

theorem c1_filterMap_none {β : Type _} (g : Chunk → Option β) (cs : List Chunk)
    (h : ∀ c ∈ cs, g c = none) : cs.filterMap g = [] := by
  induction cs with
  | nil => rfl
  | cons c t ih =>
    rw [List.filterMap_cons, h c (List.mem_cons_self c t)]
    exact ih (fun x hx => h x (List.mem_cons_of_mem c hx))

theorem c1_filterMap_singleton_getLast {β : Type _} (g : Chunk → Option β) (c : Chunk) :
    (List.filterMap g [c]).getLast? = g c := by
  cases hg : g c <;> simp [List.filterMap_cons, hg]

theorem c1_run_plain (orig : JObject) (rev : String → Option String) (mn : String)
    (rc : Option CodexResponse) (deltas : List String) (resp : CodexResponse)
    (p1 pS : ConvertCliToOpenAIParams)
    (hp1 : p1 = { initConvertParams mn with
        ResponseID := (rc.bind (·.id)).getD ""
      , CreatedAt := (rc.bind (·.created_at)).getD 0
      , Model := (rc.bind (·.model)).getD "" })
    (hpS : pS = if deltas = [] then p1 else fillCompat orig p1) :
    runCodexStream orig rev mn
        (({ type := "response.created", response := rc } : CodexEvent) ::
          (deltas.map (fun d =>
            ({ type := "response.output_text.delta", delta := some d } : CodexEvent)) ++
           [{ type := "response.completed", response := some resp }])) =
      (fillCompat orig pS,
       deltas.map (fun d =>
         makeContentChunk
           (mkChunkTemplate p1
             { type := "response.output_text.delta", delta := some d }) d) ++
       [{ mkChunkTemplate pS { type := "response.completed", response := some resp } with
            finish_reason := some "stop", native_finish_reason := some "stop" }]) := by
  have hstep1 : ConvertCodexResponseToOpenAI orig rev (initConvertParams mn)
      ({ type := "response.created", response := rc } : CodexEvent) = (p1, []) := by
    rw [hp1]
    rfl
  have hfci : pS.FunctionCallIndex = -1 := by
    rw [hpS]
    split
    · rw [hp1]
      rfl
    · rw [(fillCompat_state orig _).1, hp1]
      rfl
  have hopen : pS.ThinkOpen = false := by
    rw [hpS]
    split
    · rw [hp1]
      rfl
    · rw [(fillCompat_state orig _).2, hp1]
      rfl
  have hstep2 := step_completed_simple orig rev pS
    ({ type := "response.completed", response := some resp } : CodexEvent) rfl hfci hopen
  unfold runCodexStream
  rw [runCodexStreamFrom]
  dsimp only
  rw [hstep1]
  dsimp only
  simp only [List.nil_append]
  rw [runFrom_append, runFrom_textDeltas]
  rw [← hpS]
  simp only [List.nil_append]
  rw [runCodexStreamFrom]
  dsimp only
  rw [hstep2]
  rw [runCodexStreamFrom]

theorem c1_obs_content (p1 pS : ConvertCliToOpenAIParams) (resp : CodexResponse)
    (deltas : List String) :
    ((deltas.map (fun d =>
        makeContentChunk
          (mkChunkTemplate p1
            { type := "response.output_text.delta", delta := some d }) d)) ++
      [{ mkChunkTemplate pS { type := "response.completed", response := some resp } with
           finish_reason := some "stop", native_finish_reason := some "stop" }]).foldl
      (fun (a : String) (c : Chunk) => a ++ c.delta.content.getD "") "" = deltas.foldl (· ++ ·) "" := by
  rw [List.foldl_append, c1_fold_content]
  simp [mkChunkTemplate]

theorem c1_obs_summary (p1 pS : ConvertCliToOpenAIParams) (resp : CodexResponse)
    (deltas : List String) :
    ((deltas.map (fun d =>
        makeContentChunk
          (mkChunkTemplate p1
            { type := "response.output_text.delta", delta := some d }) d)) ++
      [{ mkChunkTemplate pS { type := "response.completed", response := some resp } with
           finish_reason := some "stop", native_finish_reason := some "stop" }]).foldl
      (fun (a : String) (c : Chunk) => a ++ c.delta.reasoning_summary.getD "") "" = "" := by
  refine c1_foldl_str_empty _ _ ?_ ""
  intro c hc
  rcases List.mem_append.mp hc with hc | hc
  · rcases List.mem_map.mp hc with ⟨d, -, rfl⟩
    rfl
  · rw [List.mem_singleton] at hc
    subst hc
    rfl

theorem c1_obs_reasoning (p1 pS : ConvertCliToOpenAIParams) (resp : CodexResponse)
    (deltas : List String) :
    ((deltas.map (fun d =>
        makeContentChunk
          (mkChunkTemplate p1
            { type := "response.output_text.delta", delta := some d }) d)) ++
      [{ mkChunkTemplate pS { type := "response.completed", response := some resp } with
           finish_reason := some "stop", native_finish_reason := some "stop" }]).foldl
      (fun (a : String) (c : Chunk) => a ++ (c.delta.reasoning.map reasoningValText).getD "") "" = "" := by
  refine c1_foldl_str_empty _ _ ?_ ""
  intro c hc
  rcases List.mem_append.mp hc with hc | hc
  · rcases List.mem_map.mp hc with ⟨d, -, rfl⟩
    rfl
  · rw [List.mem_singleton] at hc
    subst hc
    rfl

theorem c1_obs_tools (p1 pS : ConvertCliToOpenAIParams) (resp : CodexResponse)
    (deltas : List String) :
    ((deltas.map (fun d =>
        makeContentChunk
          (mkChunkTemplate p1
            { type := "response.output_text.delta", delta := some d }) d)) ++
      [{ mkChunkTemplate pS { type := "response.completed", response := some resp } with
           finish_reason := some "stop", native_finish_reason := some "stop" }]).foldl
      (fun (a : List (String × String × String)) (c : Chunk) => a ++ chunkToolTriples c) [] = [] := by
  refine c1_foldl_list_empty _ _ ?_ []
  intro c hc
  rcases List.mem_append.mp hc with hc | hc
  · rcases List.mem_map.mp hc with ⟨d, -, rfl⟩
    rfl
  · rw [List.mem_singleton] at hc
    subst hc
    rfl

theorem c1_obs_finish (p1 pS : ConvertCliToOpenAIParams) (resp : CodexResponse)
    (deltas : List String) :
    (((deltas.map (fun d =>
        makeContentChunk
          (mkChunkTemplate p1
            { type := "response.output_text.delta", delta := some d }) d)) ++
      [{ mkChunkTemplate pS { type := "response.completed", response := some resp } with
           finish_reason := some "stop", native_finish_reason := some "stop" }]).filterMap
      (fun (c : Chunk) => c.finish_reason)).getLast? = some "stop" := by
  rw [List.filterMap_append]
  rw [c1_filterMap_none (fun c => c.finish_reason)
      (deltas.map (fun d =>
        makeContentChunk
          (mkChunkTemplate p1
            { type := "response.output_text.delta", delta := some d }) d))
      (fun c hc => by
        rcases List.mem_map.mp hc with ⟨d, -, rfl⟩
        rfl)]
  rw [List.nil_append]
  exact c1_filterMap_singleton_getLast _ _

theorem c1_obs_usage (p1 pS : ConvertCliToOpenAIParams) (resp : CodexResponse)
    (deltas : List String) :
    (((deltas.map (fun d =>
        makeContentChunk
          (mkChunkTemplate p1
            { type := "response.output_text.delta", delta := some d }) d)) ++
      [{ mkChunkTemplate pS { type := "response.completed", response := some resp } with
           finish_reason := some "stop", native_finish_reason := some "stop" }]).filterMap
      (fun (c : Chunk) => c.usage)).getLast? = resp.usage.bind usageFromCodex := by
  rw [List.filterMap_append]
  rw [c1_filterMap_none (fun c => c.usage)
      (deltas.map (fun d =>
        makeContentChunk
          (mkChunkTemplate p1
            { type := "response.output_text.delta", delta := some d }) d))
      (fun c hc => by
        rcases List.mem_map.mp hc with ⟨d, -, rfl⟩
        rfl)]
  rw [List.nil_append]
  exact c1_filterMap_singleton_getLast _ _

/-- C1 (amended): for a complete plain-text exchange — a `response.created`
event, any number of `response.output_text.delta` events, and a terminal
`response.completed` whose response object holds a single message item whose
single `output_text` part equals the concatenation of the deltas and whose
status is `"completed"` — the non-stream translation of the terminal event
succeeds and the streaming chunks aggregate to exactly the same observables
(content, reasoning summary, reasoning text, tool calls, finish reason and
usage).  The unrestricted claim is refuted by
`stream_nonstream_equivalence_counterexample`: with a function call in the
output the streaming path finishes with `"tool_calls"` while the non-stream
path always reports `"stop"`. -/
theorem stream_nonstream_equivalence_amended
    (orig : JObject) (rev : String → Option String) (mn : String) (nowUnix : Int)
    (rc : Option CodexResponse) (deltas : List String) (resp : CodexResponse)
    (hstatus : resp.status = some "completed")
    (houtput : resp.output = some
      [{ type := "message"
       , content := some [{ type := "output_text"
                          , text := deltas.foldl (· ++ ·) "" }] }]) :
    ∃ r, ConvertCodexResponseToOpenAINonStream orig rev nowUnix
          { type := "response.completed", response := some resp } = some r ∧
      streamObservables
          (runCodexStream orig rev mn
            (({ type := "response.created", response := rc } : CodexEvent) ::
              (deltas.map (fun d =>
                ({ type := "response.output_text.delta", delta := some d } : CodexEvent)) ++
               [{ type := "response.completed", response := some resp }]))).2 =
        nsObservables r := by
  have hns : ConvertCodexResponseToOpenAINonStream orig rev nowUnix
      ({ type := "response.completed", response := some resp } : CodexEvent) =
      some { id := resp.id.getD ""
           , created := resp.created_at.getD nowUnix
           , model := resp.model.getD "model"
           , message :=
               { role := "assistant"
               , content :=
                   if deltas.foldl (· ++ ·) "" = "" then none
                   else some (deltas.foldl (· ++ ·) "") }
           , finish_reason := some "stop"
           , native_finish_reason := some "stop"
           , usage := resp.usage.bind usageFromCodex } := by
    unfold ConvertCodexResponseToOpenAINonStream
    rw [if_neg (by simp)]
    dsimp only
    simp only [Option.getD_some]
    rw [houtput]
    simp only [hstatus]
    simp only [List.foldl_cons, List.foldl_nil]
    rw [show nsProcessItem rev {}
        ({ type := "message"
         , content := some [{ type := "output_text", text := deltas.foldl (· ++ ·) "" }] }
          : CodexItem) =
        ({ contentText := deltas.foldl (· ++ ·) "" } : NSAccum) from by
      simp [nsProcessItem, List.find?]]
    dsimp only
    rw [applyCompat_empty]
    simp
  refine ⟨_, hns, ?_⟩
  rw [c1_run_plain orig rev mn rc deltas resp _ _ rfl rfl]
  dsimp only
  simp only [streamObservables, nsObservables, Observables.mk.injEq]
  refine ⟨?_, ?_, ?_, ?_, ?_, ?_⟩
  · rw [c1_obs_content]
    by_cases hT : deltas.foldl (· ++ ·) "" = ""
    · simp [hT]
    · simp [hT]
  · exact c1_obs_summary _ _ _ _
  · exact c1_obs_reasoning _ _ _ _
  · exact c1_obs_tools _ _ _ _
  · exact c1_obs_finish _ _ _ _
  · exact c1_obs_usage _ _ _ _

/-- The concrete terminal response used by the C1 amended witness. -/
def c1AmendedResp : CodexResponse :=
  { status := some "completed"
  , output := some [{ type := "message"
                    , content := some [{ type := "output_text", text := "Hello" }] }] }

/-- Witness for the C1 amended theorem at a concrete two-delta exchange. -/
theorem stream_nonstream_equivalence_amended_witness :
    c1AmendedResp.status = some "completed" ∧
    c1AmendedResp.output = some
      [{ type := "message"
       , content := some [{ type := "output_text"
                          , text := ["Hel", "lo"].foldl (· ++ ·) "" }] }] ∧
    ∃ r, ConvertCodexResponseToOpenAINonStream [] (fun _ => none) 7
          { type := "response.completed", response := some c1AmendedResp } = some r ∧
      streamObservables
          (runCodexStream [] (fun _ => none) "m"
            (({ type := "response.created"
              , response := some { id := some "r1", created_at := some 5, model := some "mx" } }
                : CodexEvent) ::
              (["Hel", "lo"].map (fun d =>
                ({ type := "response.output_text.delta", delta := some d } : CodexEvent)) ++
               [{ type := "response.completed", response := some c1AmendedResp }]))).2 =
        nsObservables r :=
  ⟨rfl, by decide,
   stream_nonstream_equivalence_amended [] (fun _ => none) "m" 7
     (some { id := some "r1", created_at := some 5, model := some "mx" })
     ["Hel", "lo"] c1AmendedResp rfl (by decide)⟩
